import Mathlib

/-!
Verification development for a symbolic semantic analyser
(lexicon / Semantic Event Form / analyzer pipeline).

The definitions below are a shallow embedding of the Python sources
`lexicon.py`, `semantic_event_forms.py` and `semantic_analyzer.py`:
pure functions become Lean functions, Python lists become `List`,
Python dicts (whose iteration order is insertion order) become
association lists kept in insertion order, and machine behaviour such
as raising `KeyError` is made explicit with `Except`.  Python sets are
only ever used for membership tests in the sources, so they are
embedded as lists quotiented by nothing - membership is all that is
consumed downstream.
-/

namespace SemAn

/-! Character-level string helpers.  They implement Python's
`str.lower`, `str.upper`, `str.endswith` and slicing for the ASCII
strings this program handles, and unlike the library's
`String.toLower`/`String.toUpper` (which recurse on byte positions via
well-founded recursion) they evaluate inside the kernel. -/

/-- Python's `str.lower` over the character list. -/
def strToLower (s : String) : String := String.mk (s.data.map Char.toLower)

/-- Python's `str.upper` over the character list. -/
def strToUpper (s : String) : String := String.mk (s.data.map Char.toUpper)

/-- Python's `str.endswith` over the character lists. -/
def strEndsWith (s suffix : String) : Bool := suffix.data.isSuffixOf s.data

/-- Python's `word[:-n]`: drop the last `n` characters (empty when the
string is no longer than `n`). -/
def strDropLast (s : String) (n : Nat) : String :=
  String.mk (s.data.take (s.data.length - n))

/-- A word sense from `lexicon.py` (`WordSense.__init__`): the word in
canonical lowercase, its 1-based sense number, a syntactic class tag,
grammatical feature tags, and semantic class tags ordered from most
specific to most abstract. -/
structure WordSense where
  word : String
  senseNum : Nat
  syntacticClass : String
  features : List String
  semanticClasses : List String
deriving DecidableEq, Repr

/-- `WordSense.matches_class`: a sense matches a class tag when the tag
is its syntactic class or one of its semantic classes. -/
def WordSense.matchesClass (s : WordSense) (cls : String) : Bool :=
  cls == s.syntacticClass || s.semanticClasses.contains cls

/-- A Semantic Event Form from `semantic_event_forms.py` (`SEF`):
a triple of class tags.  The unused `order_constraint` slot is always
`None` in the sources and is omitted. -/
structure SEF where
  left : String
  relation : String
  right : String
deriving DecidableEq, Repr

/-- A complex triple from `SEFSet.create_complex_triples`: an SEF bound
to concrete word positions (`0` marks an implicit relation) and to the
surface words at those positions. -/
structure ComplexTriple where
  sef : SEF
  positions : Nat × Nat × Nat
  words : String × String × String
deriving DecidableEq, Repr

/-- Left position of a complex triple (`ct['positions'][0]`). -/
def ComplexTriple.leftPos (ct : ComplexTriple) : Nat := ct.positions.1

/-- Relation position of a complex triple (`ct['positions'][1]`). -/
def ComplexTriple.relPos (ct : ComplexTriple) : Nat := ct.positions.2.1

/-- Right position of a complex triple (`ct['positions'][2]`). -/
def ComplexTriple.rightPos (ct : ComplexTriple) : Nat := ct.positions.2.2

/-! ### `SEFSet.filter_by_order`

The Python function runs two successive rule blocks over each triple
with a shared `valid` flag and a separate `filtered.append(ct)` after
each block, so one input triple can contribute zero, one or two output
entries.  `validFirstBlock` is the value of `valid` after the first
block; `validSecondBlock` is the update the second `if/elif` chain
applies to that flag. -/

/-- Value of `valid` after the first rule block of
`SEFSet.filter_by_order` (lines 246-263 of the source). -/
def validFirstBlock (ct : ComplexTriple) : Bool :=
  let sef := ct.sef
  let l := ct.leftPos
  let r := ct.relPos
  let rt := ct.rightPos
  if sef.relation == "MOD" then
    if ["ADJ", "EMOTION", "ATTITUDE", "AGE"].contains sef.right then
      decide (rt < l)
    else if sef.right == "ART" then
      decide (rt < l)
    else
      true
  else if ["V", "HIT", "CONSUME", "BE", "EQUIV"].contains sef.relation then
    decide (l < rt) && (r == 0 || (decide (l < r) && decide (r < rt)))
  else if sef.relation == "SIMILAR" then
    decide (l < r) && decide (r < rt)
  else
    true

/-- Update applied to the `valid` flag by the second `if/elif` rule
chain of `SEFSet.filter_by_order` (lines 268-292 of the source); the
chain can only lower the flag, never raise it. -/
def validSecondBlock (ct : ComplexTriple) (valid : Bool) : Bool :=
  let sef := ct.sef
  let l := ct.leftPos
  let r := ct.relPos
  let rt := ct.rightPos
  if sef.relation == "MOD" && sef.right == "ADJ" then
    if l < rt then false else valid
  else if sef.relation == "MOD" && sef.right == "ART" then
    if l < rt then false else valid
  else if sef.relation == "MOD" && sef.left == "N" && sef.right == "N" then
    if ((l : Int) - (rt : Int)).natAbs ≠ 1 then false else valid
  else if ["N", "PERSON", "ANIMAL", "OBJECT"].contains sef.left &&
          ["V", "HIT", "CONSUME", "MOVE", "BE", "EQUIV"].contains sef.relation then
    if ¬ (l < r ∧ r < rt) then false else valid
  else if sef.relation == "PREP" || ["LOC", "PART"].contains sef.relation then
    if ¬ (l < rt) then false else valid
  else
    valid

/-- Output the loop body of `SEFSet.filter_by_order` produces for one
triple: an append after the first rule block when `valid` holds, and a
second append when `valid` still holds after the second rule chain. -/
def filterStep (ct : ComplexTriple) : List ComplexTriple :=
  let valid1 := validFirstBlock ct
  let first := if valid1 then [ct] else []
  let valid2 := validSecondBlock ct valid1
  let second := if valid2 then [ct] else []
  first ++ second

/-- `SEFSet.filter_by_order`: the concatenation, in input order, of the
per-triple appends of the loop. -/
def filter_by_order (cts : List ComplexTriple) : List ComplexTriple :=
  cts.flatMap filterStep

/-! Helper lemmas about `filter_by_order`, shared by several claims. -/

theorem validSecondBlock_false (ct : ComplexTriple) :
    validSecondBlock ct false = false := by
  simp [validSecondBlock]

theorem mem_filterStep {x ct : ComplexTriple} :
    x ∈ filterStep ct ↔ x = ct ∧ validFirstBlock ct = true := by
  unfold filterStep
  by_cases h1 : validFirstBlock ct = true
  · by_cases h2 : validSecondBlock ct (validFirstBlock ct) = true <;> simp [h1, h2]
  · rw [Bool.not_eq_true] at h1
    simp [h1, validSecondBlock_false]

theorem mem_filter_by_order {x : ComplexTriple} {cts : List ComplexTriple} :
    x ∈ filter_by_order cts ↔ x ∈ cts ∧ validFirstBlock x = true := by
  unfold filter_by_order
  simp only [List.mem_flatMap]
  constructor
  · rintro ⟨ct, hct, hx⟩
    rcases mem_filterStep.mp hx with ⟨rfl, hv⟩
    exact ⟨hct, hv⟩
  · rintro ⟨hx, hv⟩
    exact ⟨x, hx, mem_filterStep.mpr ⟨rfl, hv⟩⟩

/-! ### `SEFSet._abstraction_level` and `SEFSet.eliminate_abstract_duplicates` -/

/-- `SEFSet._abstraction_level`: 10 points for each of the three SEF
slots holding a bare syntactic tag; lower is more specific. -/
def abstraction_level (sef : SEF) : Nat :=
  let syntacticClasses := ["N", "V", "ADJ", "ADV", "ART", "PREP"]
  (if syntacticClasses.contains sef.left then 10 else 0) +
  (if syntacticClasses.contains sef.right then 10 else 0) +
  (if syntacticClasses.contains sef.relation then 10 else 0)

/-- Keys of the `position_groups` dict of
`SEFSet.eliminate_abstract_duplicates`, in insertion order (Python
dicts iterate in first-insertion order). -/
def positionKeys (cts : List ComplexTriple) : List (Nat × Nat × Nat) :=
  cts.foldl (fun ks ct => if ct.positions ∈ ks then ks else ks ++ [ct.positions]) []

/-- Python's `min(cts, key=f)`: the first element attaining the minimal
key, here with `f = _abstraction_level ∘ sef`. -/
def minByAbstraction (c : ComplexTriple) (rest : List ComplexTriple) : ComplexTriple :=
  rest.foldl (fun best ct =>
    if abstraction_level ct.sef < abstraction_level best.sef then ct else best) c

/-- Contribution of one position group in
`SEFSet.eliminate_abstract_duplicates`: a singleton group is kept
whole (`filtered.extend(cts)`), a larger group contributes only
`min(cts, key=abstraction_level)`. -/
def keepForGroup : List ComplexTriple → List ComplexTriple
  | [] => []
  | [ct] => [ct]
  | c :: c2 :: rest => [minByAbstraction c (c2 :: rest)]

/-- `SEFSet.eliminate_abstract_duplicates`: group by the positions
tuple (in first-occurrence order) and keep each group's contribution. -/
def eliminate_abstract_duplicates (cts : List ComplexTriple) : List ComplexTriple :=
  (positionKeys cts).flatMap (fun pos =>
    keepForGroup (cts.filter (fun ct => ct.positions == pos)))

/-! ### `SEFSet.get_relevant_sefs`

The Python function consumes only `word_classes_dict.values()`, so the
embedding takes the per-position class lists directly.  The
`class_counts` tally computed at lines 157-160 of the source is dead
code (never read) and is omitted.  `all_classes` is a Python set used
only for membership tests; the concatenation below is membership-equal
to it. -/

/-- `SEFSet.get_relevant_sefs`: keep catalog SEFs whose left or right
tag occurs among the sentence's classes, then keep those matched by at
least two word positions, falling back to the previous set when that
filter empties the result. -/
def get_relevant_sefs (sefs : List SEF) (wordClasses : List (List String)) : List SEF :=
  let allClasses := wordClasses.flatMap id
  let relevant := sefs.filter (fun sef =>
    allClasses.contains sef.left || allClasses.contains sef.right)
  let sefOccurrences := relevant.filter (fun sef =>
    2 ≤ (wordClasses.filter (fun classes =>
      classes.contains sef.left || classes.contains sef.right)).length)
  if sefOccurrences.isEmpty then relevant else sefOccurrences

/-! ### `SEFSet.create_complex_triples` -/

/-- Entry of the word-position class table built by
`SemanticAnalyzer.analyze` step 1: `{word, senses, classes}` keyed by
1-based position.  The `classes` field is the Python set
`{syntactic and semantic classes of all senses}` flattened to a list;
only membership in it is ever consumed. -/
structure PosInfo where
  word : String
  senses : List WordSense
  classes : List String
deriving DecidableEq, Repr

/-- Sentence class table: 1-based position to `PosInfo`, in position
order (Python dict insertion order). -/
abbrev ClassTable := List (Nat × PosInfo)

/-- First relation filler strictly between the two argument positions
(`for rnum, rword in relation_positions: if ... break` in
`create_complex_triples`). -/
def findRelBetween (relPositions : List (Nat × String)) (l r : Nat) :
    Option (Nat × String) :=
  relPositions.find? (fun p => (l < p.1 && p.1 < r) || (r < p.1 && p.1 < l))

/-- `SEFSet.create_complex_triples`: bind every relevant SEF to every
pair of distinct matching positions; `MOD` relations are implicit
(`relPos = 0`), other relations take the first explicit filler lying
strictly between the two arguments, defaulting to the implicit form. -/
def create_complex_triples (relevantSefs : List SEF) (table : ClassTable) :
    List ComplexTriple :=
  relevantSefs.flatMap (fun sef =>
    let leftPositions := (table.filter (fun p => p.2.classes.contains sef.left)).map
      (fun p => (p.1, p.2.word))
    let rightPositions := (table.filter (fun p => p.2.classes.contains sef.right)).map
      (fun p => (p.1, p.2.word))
    let relPositions := (table.filter (fun p =>
      p.2.classes.contains sef.relation ||
        strToLower p.2.word == strToLower sef.relation)).map (fun p => (p.1, p.2.word))
    leftPositions.flatMap (fun lp =>
      rightPositions.flatMap (fun rp =>
        if lp.1 ≠ rp.1 then
          let rel :=
            if sef.relation == "MOD" then (0, "MOD")
            else match findRelBetween relPositions lp.1 rp.1 with
              | some p => p
              | none => (0, sef.relation)
          [⟨sef, (lp.1, rel.1, rp.1), (lp.2, rel.2, rp.2)⟩]
        else [])))

/-! ### The fixed SEF catalog (`SEFSet._initialize_sefs`) -/

/-- The catalog built by `SEFSet._initialize_sefs`, in declaration
order. -/
def sefCatalog : List SEF :=
  [⟨"N", "V", "N"⟩,
   ⟨"N", "MOD", "ADJ"⟩,
   ⟨"N", "MOD", "ART"⟩,
   ⟨"V", "MOD", "ADV"⟩,
   ⟨"ADJ", "MOD", "ADV"⟩,
   ⟨"N", "PREP", "N"⟩,
   ⟨"V", "PREP", "N"⟩,
   ⟨"PERSON", "MOD", "EMOTION"⟩,
   ⟨"PERSON", "MOD", "ATTITUDE"⟩,
   ⟨"PERSON", "HIT", "PERSON"⟩,
   ⟨"PERSON", "MOD", "AGE"⟩,
   ⟨"PERSON", "CONSUME", "FOOD"⟩,
   ⟨"PERSON", "CONSUME", "ANIMAL"⟩,
   ⟨"DURATION", "MOVE", "WEAPON"⟩,
   ⟨"INSECT", "SIMILAR", "WEAPON"⟩,
   ⟨"DURATION", "SIMILAR", "WEAPON"⟩,
   ⟨"BIRD", "LOC", "PLACE"⟩,
   ⟨"PLACE", "PART", "DIRECTION"⟩,
   ⟨"BIRD", "NAME", "BIRD"⟩,
   ⟨"BIRD", "TYPE", "PLACE"⟩,
   ⟨"BIRD", "EQUIV", "BIRD"⟩,
   ⟨"BIRD", "MOD", "SIZE"⟩,
   ⟨"ANIMAL", "LOC", "LANDMASS"⟩,
   ⟨"ANIMAL", "CONSUME", "ANIMAL"⟩,
   ⟨"PERSON", "DISCOVER", "OBJECT"⟩,
   ⟨"PERSON", "BOYCOTT", "OBJECT"⟩,
   ⟨"PERSON", "LEARN", "READABLE"⟩,
   ⟨"PERSON", "CREATE", "READABLE"⟩,
   ⟨"PERSON", "COMMUNICATE", "READABLE"⟩,
   ⟨"LEARNER", "LEARN", "READABLE"⟩,
   ⟨"EDUCATOR", "TEACH", "READABLE"⟩,
   ⟨"PERSON", "MOVE", "PLACE"⟩,
   ⟨"PERSON", "ARRIVE", "PLACE"⟩,
   ⟨"PERSON", "TRAVEL", "PLACE"⟩,
   ⟨"PERSON", "LABOR", "OBJECT"⟩,
   ⟨"PERSON", "ENJOY", "OBJECT"⟩,
   ⟨"PERSON", "DO", "WORK"⟩,
   ⟨"PERSON", "DO", "ACTIVITY"⟩,
   ⟨"PERSON", "BE", "PLACE"⟩,
   ⟨"OBJECT", "BE", "PLACE"⟩,
   ⟨"BUILDING", "BE", "PLACE"⟩,
   ⟨"PERSON", "MOD", "COLOR"⟩,
   ⟨"OBJECT", "MOD", "COLOR"⟩,
   ⟨"PERSON", "MOD", "SIZE"⟩,
   ⟨"OBJECT", "MOD", "SIZE"⟩,
   ⟨"ACTION", "MOD", "SPEED"⟩,
   ⟨"ACTION", "MOD", "MANNER"⟩,
   ⟨"PERSON", "USE", "DEVICE"⟩,
   ⟨"DEVICE", "BE", "OBJECT"⟩,
   ⟨"N", "MOD", "N"⟩,
   ⟨"OBJECT", "MOD", "QUALITY"⟩,
   ⟨"QUALITY", "MOD", "INTENSIFIER"⟩,
   ⟨"N", "BE", "N"⟩,
   ⟨"N", "BE", "ADJ"⟩,
   ⟨"N", "EQUIV", "N"⟩,
   ⟨"N", "R/P", "WHO"⟩,
   ⟨"N", "R/P", "WHICH"⟩,
   ⟨"N", "R/P", "THAT"⟩,
   ⟨"PERSON", "R/P", "WHO"⟩]

/-! ### The lexicon (`lexicon.py`)

`Lexicon.entries` is a dict from lowercased word to the list of its
senses in insertion order; it is embedded as an association list.  The
constructor also loads `custom_lexicon.json`, a file absent from the
repository, so `_load_custom_lexicon` is a no-op here. -/

/-- Association-list form of `Lexicon.entries`. -/
abbrev Lexicon := List (String × List WordSense)

/-- Raw dict access `entries.get(key, [])` (no case folding). -/
def lexGet (lex : Lexicon) (key : String) : List WordSense :=
  match lex.find? (fun e => e.1 == key) with
  | some e => e.2
  | none => []

/-- `Lexicon.add_sense`: lowercase the word and append the new sense to
its entry, creating the entry at the end of the dict if absent. -/
def add_sense (lex : Lexicon) (word : String) (senseNum : Nat)
    (synClass : String) (features semClasses : List String) : Lexicon :=
  let w := strToLower word
  let sense : WordSense := ⟨w, senseNum, synClass, features, semClasses⟩
  if (lex.find? (fun e => e.1 == w)).isSome then
    lex.map (fun e => if e.1 == w then (e.1, e.2 ++ [sense]) else e)
  else
    lex ++ [(w, [sense])]

/-- `Lexicon.lookup`: case-insensitive exact lookup, empty list when
absent. -/
def lookup (lex : Lexicon) (word : String) : List WordSense :=
  lexGet lex (strToLower word)

/-- `Lexicon.add_generic_sense` (with `persist=False`, the only way the
pipeline calls it): next sense number is `count(existing senses)+1`;
a bare noun/OBJECT sense is appended; the word's senses after the
addition are returned together with the updated lexicon. -/
def add_generic_sense (lex : Lexicon) (word : String) :
    Lexicon × List WordSense :=
  let w := strToLower word
  let senses := lexGet lex w
  let senseNum := senses.length + 1
  let lex2 := add_sense lex w senseNum "N" [] ["OBJECT"]
  (lex2, lexGet lex2 w)

/-- The `add_sense` calls of `Lexicon._initialize_lexicon`, in source
order: `(word, senseNum, syntacticClass, features, semanticClasses)`. -/
def seedSenses : List (String × Nat × String × List String × List String) :=
  [("read", 1, "V", ["PRES"], ["COMMUNICATE", "LEARN"]),
   ("reads", 1, "V", ["PRES", "SING"], ["COMMUNICATE", "LEARN"]),
   ("teach", 1, "V", ["PRES"], ["TEACH", "COMMUNICATE"]),
   ("teaches", 1, "V", ["PRES", "SING"], ["TEACH", "COMMUNICATE"]),
   ("walk", 1, "V", ["PRES"], ["MOVE", "TRAVEL"]),
   ("walks", 1, "V", ["PRES", "SING"], ["MOVE", "TRAVEL"]),
   ("work", 1, "V", ["PRES"], ["LABOR", "DO"]),
   ("works", 1, "V", ["PRES", "SING"], ["LABOR", "DO"]),
   ("study", 1, "V", ["PRES"], ["LEARN", "DO"]),
   ("studies", 1, "V", ["PRES", "SING"], ["LEARN", "DO"]),
   ("move", 1, "V", ["PRES"], ["MOVE"]),
   ("moves", 1, "V", ["PRES", "SING"], ["MOVE"]),
   ("is", 1, "V", ["PRES", "SING"], ["BE", "EQUIV"]),
   ("are", 1, "V", ["PRES", "PL"], ["BE", "EQUIV"]),
   ("pitcher", 1, "N", ["SING"], ["PERSON", "ATHLETE"]),
   ("pitcher", 2, "N", ["SING"], ["CONTAINER", "OBJECT"]),
   ("person", 1, "N", ["SING"], ["PERSON"]),
   ("people", 1, "N", ["PL"], ["PERSON"]),
   ("student", 1, "N", ["SING"], ["PERSON", "LEARNER"]),
   ("students", 1, "N", ["PL"], ["PERSON", "LEARNER"]),
   ("teacher", 1, "N", ["SING"], ["PERSON", "EDUCATOR"]),
   ("teachers", 1, "N", ["PL"], ["PERSON", "EDUCATOR"]),
   ("doctor", 1, "N", ["SING"], ["PERSON", "PROFESSIONAL"]),
   ("child", 1, "N", ["SING"], ["PERSON", "YOUNG"]),
   ("children", 1, "N", ["PL"], ["PERSON", "YOUNG"]),
   ("parent", 1, "N", ["SING"], ["PERSON", "FAMILY"]),
   ("parents", 1, "N", ["PL"], ["PERSON", "FAMILY"]),
   ("friend", 1, "N", ["SING"], ["PERSON", "RELATION"]),
   ("friends", 1, "N", ["PL"], ["PERSON", "RELATION"]),
   ("batter", 1, "N", ["SING"], ["PERSON", "ATHLETE"]),
   ("batter", 2, "N", ["SING"], ["LIQUID", "SUBSTANCE"]),
   ("umpire", 1, "N", ["SING"], ["PERSON", "OFFICIAL"]),
   ("book", 1, "N", ["SING"], ["OBJECT", "READABLE"]),
   ("books", 1, "N", ["PL"], ["OBJECT", "READABLE"]),
   ("table", 1, "N", ["SING"], ["OBJECT", "FURNITURE"]),
   ("chair", 1, "N", ["SING"], ["OBJECT", "FURNITURE"]),
   ("computer", 1, "N", ["SING"], ["OBJECT", "DEVICE"]),
   ("phone", 1, "N", ["SING"], ["OBJECT", "DEVICE"]),
   ("car", 1, "N", ["SING"], ["OBJECT", "VEHICLE"]),
   ("cars", 1, "N", ["PL"], ["OBJECT", "VEHICLE"]),
   ("mathematics", 1, "N", ["SING"], ["SUBJECT", "ACADEMIC"]),
   ("mathematics", 1, "N", ["SING"], ["SUBJECT", "READABLE"]),
   ("house", 1, "N", ["SING"], ["PLACE", "BUILDING"]),
   ("school", 1, "N", ["SING"], ["PLACE", "BUILDING", "EDUCATION"]),
   ("office", 1, "N", ["SING"], ["PLACE", "BUILDING", "WORK"]),
   ("park", 1, "N", ["SING"], ["PLACE", "OUTDOOR", "RECREATION"]),
   ("city", 1, "N", ["SING"], ["PLACE", "URBAN"]),
   ("country", 1, "N", ["SING"], ["PLACE", "NATION"]),
   ("condor", 1, "N", ["SING"], ["BIRD", "ANIMAL"]),
   ("landbird", 1, "N", ["SING"], ["BIRD", "ANIMAL"]),
   ("continent", 1, "N", ["SING"], ["PLACE", "LANDMASS"]),
   ("man", 1, "N", ["SING"], ["PERSON", "MALE", "MAMMAL"]),
   ("men", 1, "N", ["PL"], ["PERSON", "MALE", "MAMMAL"]),
   ("fish", 1, "N", ["SING"], ["ANIMAL", "AQUATIC"]),
   ("fish", 2, "N", ["PL"], ["ANIMAL", "AQUATIC"]),
   ("fish", 3, "N", ["SING"], ["FOOD"]),
   ("time", 1, "N", ["SING"], ["DURATION", "CONCEPT"]),
   ("flies", 1, "N", ["PL"], ["INSECT", "ANIMAL"]),
   ("arrow", 1, "N", ["SING"], ["WEAPON", "OBJECT"]),
   ("arrows", 1, "N", ["PL"], ["WEAPON", "OBJECT"]),
   ("strike", 1, "V", ["PL", "PAST"], ["DISCOVER", "FIND"]),
   ("strike", 2, "V", ["PL", "PAST"], ["BOYCOTT", "REFUSE"]),
   ("strike", 3, "V", ["PL", "PAST"], ["HIT", "TOUCH"]),
   ("struck", 1, "V", ["SING", "PAST"], ["DISCOVER", "FIND"]),
   ("struck", 2, "V", ["SING", "PAST"], ["BOYCOTT", "REFUSE"]),
   ("struck", 3, "V", ["SING", "PAST"], ["HIT", "TOUCH"]),
   ("eat", 1, "V", ["PL", "PR"], ["CONSUME", "INGEST"]),
   ("ate", 1, "V", ["SING", "PAST"], ["CONSUME", "INGEST"]),
   ("fly", 1, "V", ["PL", "PR"], ["MOVE", "TRAVEL"]),
   ("flies", 2, "V", ["SING", "PR"], ["MOVE", "TRAVEL"]),
   ("like", 1, "V", ["PL", "PR"], ["SIMILAR", "RESEMBLE"]),
   ("like", 2, "PREP", [], ["SIMILAR"]),
   ("is", 1, "V", ["SING", "PR"], ["BE", "EQUIV"]),
   ("are", 1, "V", ["PL", "PR"], ["BE", "EQUIV"]),
   ("was", 1, "V", ["SING", "PAST"], ["BE", "EQUIV"]),
   ("were", 1, "V", ["PL", "PAST"], ["BE", "EQUIV"]),
   ("read", 1, "V", ["PL", "PR"], ["CONSUME", "LEARN"]),
   ("reads", 1, "V", ["SING", "PR"], ["CONSUME", "LEARN"]),
   ("write", 1, "V", ["PL", "PR"], ["CREATE", "COMMUNICATE"]),
   ("writes", 1, "V", ["SING", "PR"], ["CREATE", "COMMUNICATE"]),
   ("study", 1, "V", ["PL", "PR"], ["LEARN", "THINK"]),
   ("studies", 1, "V", ["SING", "PR"], ["LEARN", "THINK"]),
   ("work", 1, "V", ["PL", "PR"], ["DO", "LABOR"]),
   ("works", 1, "V", ["SING", "PR"], ["DO", "LABOR"]),
   ("play", 1, "V", ["PL", "PR"], ["DO", "ENJOY"]),
   ("plays", 1, "V", ["SING", "PR"], ["DO", "ENJOY"]),
   ("go", 1, "V", ["PL", "PR"], ["MOVE", "TRAVEL"]),
   ("goes", 1, "V", ["SING", "PR"], ["MOVE", "TRAVEL"]),
   ("come", 1, "V", ["PL", "PR"], ["MOVE", "ARRIVE"]),
   ("comes", 1, "V", ["SING", "PR"], ["MOVE", "ARRIVE"]),
   ("walk", 1, "V", ["PL", "PR"], ["MOVE", "SELF"]),
   ("walks", 1, "V", ["SING", "PR"], ["MOVE", "SELF"]),
   ("run", 1, "V", ["PL", "PR"], ["MOVE", "FAST"]),
   ("runs", 1, "V", ["SING", "PR"], ["MOVE", "FAST"]),
   ("angry", 1, "ADJ", [], ["EMOTION", "FEELING"]),
   ("happy", 1, "ADJ", [], ["EMOTION", "FEELING"]),
   ("sad", 1, "ADJ", [], ["EMOTION", "FEELING"]),
   ("excited", 1, "ADJ", [], ["EMOTION", "FEELING"]),
   ("careless", 1, "ADJ", [], ["ATTITUDE", "QUALITY"]),
   ("careful", 1, "ADJ", [], ["ATTITUDE", "QUALITY"]),
   ("smart", 1, "ADJ", [], ["ATTITUDE", "QUALITY"]),
   ("clever", 1, "ADJ", [], ["ATTITUDE", "QUALITY"]),
   ("old", 1, "ADJ", [], ["AGE", "QUALITY"]),
   ("young", 1, "ADJ", [], ["AGE", "QUALITY"]),
   ("new", 1, "ADJ", [], ["AGE", "QUALITY"]),
   ("big", 1, "ADJ", [], ["SIZE", "QUALITY"]),
   ("small", 1, "ADJ", [], ["SIZE", "QUALITY"]),
   ("tall", 1, "ADJ", [], ["SIZE", "QUALITY"]),
   ("short", 1, "ADJ", [], ["SIZE", "QUALITY"]),
   ("largest", 1, "ADJ", [], ["SIZE", "SUPERLATIVE"]),
   ("smallest", 1, "ADJ", [], ["SIZE", "SUPERLATIVE"]),
   ("beautiful", 1, "ADJ", [], ["APPEARANCE", "QUALITY"]),
   ("red", 1, "ADJ", [], ["COLOR", "QUALITY"]),
   ("blue", 1, "ADJ", [], ["COLOR", "QUALITY"]),
   ("green", 1, "ADJ", [], ["COLOR", "QUALITY"]),
   ("yellow", 1, "ADJ", [], ["COLOR", "QUALITY"]),
   ("very", 1, "ADV", [], ["INTENSIFIER"]),
   ("really", 1, "ADV", [], ["INTENSIFIER"]),
   ("quickly", 1, "ADV", [], ["SPEED", "MANNER", "FAST"]),
   ("slowly", 1, "ADV", [], ["SPEED", "MANNER", "SLOW"]),
   ("well", 1, "ADV", [], ["QUALITY", "MANNER", "GOOD"]),
   ("badly", 1, "ADV", [], ["QUALITY", "MANNER", "BAD"]),
   ("the", 1, "ART", ["DEF"], ["DEFINITE"]),
   ("a", 1, "ART", ["INDEF"], ["INDEFINITE"]),
   ("an", 1, "ART", ["INDEF"], ["INDEFINITE"]),
   ("of", 1, "PREP", [], ["POSSESSION", "RELATION"]),
   ("on", 1, "PREP", [], ["LOCATION", "POSITION"]),
   ("in", 1, "PREP", [], ["LOCATION", "POSITION"]),
   ("at", 1, "PREP", [], ["LOCATION", "POSITION"]),
   ("to", 1, "PREP", [], ["DIRECTION", "GOAL"]),
   ("who", 1, "R/P", [], ["PERSON"]),
   ("which", 1, "R/P", [], ["THING"]),
   ("that", 1, "R/P", [], ["ANY"]),
   ("California", 1, "N", ["SING", "PROPER"], ["PLACE", "STATE"]),
   ("North", 1, "ADJ", [], ["DIRECTION"]),
   ("America", 1, "N", ["SING", "PROPER"], ["PLACE", "CONTINENT"]),
   ("called", 1, "V", ["SING", "PAST"], ["NAME", "DESIGNATE"]),
   ("she", 1, "PRO", ["SING", "FEM"], ["PERSON"]),
   ("he", 1, "PRO", ["SING", "MASC"], ["PERSON"]),
   ("i", 1, "PRO", ["SING"], ["PERSON"]),
   ("you", 1, "PRO", [], ["PERSON"]),
   ("we", 1, "PRO", ["PL"], ["PERSON"]),
   ("they", 1, "PRO", ["PL"], ["PERSON"]),
   ("am", 1, "V", ["SING", "PR"], ["BE", "EQUIV"]),
   ("have", 1, "V", ["PR"], ["HAVE"]),
   ("has", 1, "V", ["SING", "PR"], ["HAVE"]),
   ("do", 1, "V", ["PR"], ["DO"]),
   ("does", 1, "V", ["SING", "PR"], ["DO"]),
   ("hello", 1, "N", [], ["OBJECT"]),
   ("world", 1, "N", [], ["PLACE", "OBJECT"]),
   ("beautiful", 1, "ADJ", [], ["APPEARANCE", "QUALITY", "POSITIVE"])]

/-- The lexicon as built by `Lexicon.__init__` (seed vocabulary only:
the custom-lexicon file does not exist in the repository). -/
def seedLexicon : Lexicon :=
  seedSenses.foldl (fun lex e => add_sense lex e.1 e.2.1 e.2.2.1 e.2.2.2.1 e.2.2.2.2) []

/-! ### `SemanticAnalyzer.analyze`, step 0-1: tokenization and the
class table -/

/-- Splitting on whitespace runs with empty fields dropped (Python's
`str.split` with no argument); `acc` holds the current word's
characters in reverse. -/
def splitWhitespace : List Char → List Char → List String
  | [], acc => if acc.isEmpty then [] else [String.mk acc.reverse]
  | c :: cs, acc =>
    if c.isWhitespace then
      if acc.isEmpty then splitWhitespace cs []
      else String.mk acc.reverse :: splitWhitespace cs []
    else splitWhitespace cs (c :: acc)

/-- Step 0 of `analyze` for a string input: keep alphanumeric and
whitespace characters, lowercase them, split on whitespace runs.
Agrees with the Python `str` methods on the ASCII sentences this
development uses. -/
def tokenize (sentence : String) : List String :=
  splitWhitespace
    ((sentence.data.filter (fun c => c.isAlphanum || c.isWhitespace)).map Char.toLower) []

/-- The surface-form reduction candidates `tried` built at lines 53-67
of `semantic_analyzer.py`, in order.  The possessive suffix is written
with `Char.ofNat 39` (an ASCII apostrophe). -/
def surfaceFormCandidates (word : String) : List String :=
  let poss := String.mk [Char.ofNat 39, 's']
  (if strEndsWith word poss then [strDropLast word 2] else []) ++
  (if strEndsWith word "s" && 3 < word.length then [strDropLast word 1] else []) ++
  (if strEndsWith word "es" && 4 < word.length then [strDropLast word 2] else []) ++
  (if strEndsWith word "ed" && 3 < word.length then [strDropLast word 2] else []) ++
  (if strEndsWith word "ing" && 4 < word.length then [strDropLast word 3] else []) ++
  (if strEndsWith word "ly" && 3 < word.length then [strDropLast word 2] else [])

/-- Step 1 of `analyze` for one token: lexicon lookup, then the
fixed-order reduction retries (first non-empty candidate lookup wins),
then the generic-sense fallback, which mutates the lexicon. -/
def resolveToken (lex : Lexicon) (word : String) : List WordSense × Lexicon :=
  let senses := lookup lex word
  if senses.isEmpty then
    let retry := (surfaceFormCandidates word).findSome? (fun cand =>
      if cand = "" then none
      else
        let s := lookup lex (strToLower cand)
        if s.isEmpty then none else some s)
    match retry with
    | some s => (s, lex)
    | none =>
      let (lex2, s) := add_generic_sense lex word
      (s, lex2)
  else (senses, lex)

/-- Class set contributed by a list of senses
(`classes.add(sense.syntactic_class); classes.update(sense.semantic_classes)`);
a Python set consumed only through membership, embedded as the
flattened list. -/
def classesOf (senses : List WordSense) : List String :=
  senses.flatMap (fun s => s.syntacticClass :: s.semanticClasses)

/-- The `sentence_classes` table of `analyze`: 1-based positions in
token order, resolving each token and threading the (possibly grown)
lexicon. -/
def buildClassTable (lex : Lexicon) (tokens : List String) : ClassTable × Lexicon :=
  let r := tokens.foldl
    (fun (acc : ClassTable × Lexicon × Nat) word =>
      let (senses, lex2) := resolveToken acc.2.1 word
      (acc.1 ++ [(acc.2.2, ⟨word, senses, classesOf senses⟩)], lex2, acc.2.2 + 1))
    ([], lex, 1)
  (r.1, r.2.1)

/-! ### `SemanticAnalyzer.generate_structures`: root scoring and
selection -/

/-- Index of the first occurrence of a string in a list (total version
of Python's `list.index`; callers below only use it when membership is
known, the case where `.index` cannot raise). -/
def idxOf (a : String) : List String → Nat
  | [] => 0
  | b :: l => if a == b then 0 else idxOf a l + 1

/-- Python's `max(0, 1 - idx)` for a nonnegative `idx`: `1` exactly
when the match is at index 0. -/
def scoreBonus (idx : Nat) : Nat := if idx == 0 then 1 else 0

/-- Dict access `sentence_classes.get(pos)`. -/
def tableGet (table : ClassTable) (pos : Nat) : Option PosInfo :=
  (table.find? (fun p => p.1 == pos)).map (fun p => p.2)

/-- Relation contribution to the candidate score of
`generate_structures` (lines 171-181): +3 and a specificity bonus when
the relation word's first sense containing the relation tag is found
(the guarded `.index` cannot raise there). -/
def scoreRelPart (table : ClassTable) (ct : ComplexTriple) : Nat :=
  if ct.relPos ≠ 0 then
    match tableGet table ct.relPos with
    | some info =>
      match info.senses.find? (fun vs => vs.semanticClasses.contains ct.sef.relation) with
      | some vs => 3 + scoreBonus (idxOf ct.sef.relation vs.semanticClasses)
      | none => 0
    | none => 0
  else 0

/-- Argument contribution to the candidate score (lines 184-204): +2
for the first sense matching the argument tag, with the bonus only when
the tag is among the sense's semantic classes (a syntactic-only match
raises `ValueError` in `.index`, caught to score a plain +2). -/
def scoreArgPart (table : ClassTable) (pos : Nat) (tag : String) : Nat :=
  if pos ≠ 0 then
    match tableGet table pos with
    | some info =>
      match info.senses.find? (fun s => s.matchesClass tag) with
      | some s =>
        if s.semanticClasses.contains tag then 2 + scoreBonus (idxOf tag s.semanticClasses)
        else 2
      | none => 0
    | none => 0
  else 0

/-- Candidate score of `generate_structures` (lines 166-206). -/
def scoreTriple (table : ClassTable) (ct : ComplexTriple) : Nat :=
  scoreRelPart table ct + scoreArgPart table ct.leftPos ct.sef.left +
    scoreArgPart table ct.rightPos ct.sef.right

/-- One step of a stable descending insertion sort on scored triples:
the inserted element goes before every element of equal or smaller
score. -/
def insertDescBy (x : Nat × ComplexTriple) :
    List (Nat × ComplexTriple) → List (Nat × ComplexTriple)
  | [] => [x]
  | y :: ys => if x.1 < y.1 then y :: insertDescBy x ys else x :: y :: ys

/-- Stable descending sort by score.  Python's
`scored.sort(key=..., reverse=True)` is a stable descending sort, and
any two stable sorts under the same key agree, so this insertion sort
computes the same list. -/
def sortDescByScore : List (Nat × ComplexTriple) → List (Nat × ComplexTriple)
  | [] => []
  | x :: xs => insertDescBy x (sortDescByScore xs)

/-- The verb-like relation tags of `generate_structures` line 158. -/
def verbRelations : List String :=
  ["V", "HIT", "CONSUME", "MOVE", "BE", "EQUIV", "DISCOVER", "BOYCOTT", "SIMILAR", "RESEMBLE"]

/-- Python's `min(values)` over the non-empty list
`abstraction_level c :: map abstraction_level rest`. -/
def minAbstractionOf (c : ComplexTriple) (rest : List ComplexTriple) : Nat :=
  rest.foldl (fun m ct => Nat.min m (abstraction_level ct.sef)) (abstraction_level c.sef)

/-- The `main_triples` selection of `generate_structures` (lines
150-226): score the verb-like candidates, keep the maximal-score ones
(in stable order), tie-break by minimal abstraction level when the
maximum is positive, fall back to all candidates on a zero maximum, and
to the first final triple when no verb-like candidate exists. -/
def generate_main_triples (finals : List ComplexTriple) (table : ClassTable) :
    List ComplexTriple :=
  if finals.isEmpty then []
  else
    let cands := finals.filter (fun ct => verbRelations.contains ct.sef.relation)
    let mains :=
      if cands.isEmpty then []
      else
        let scored := cands.map (fun ct => (scoreTriple table ct, ct))
        match sortDescByScore scored with
        | [] => []
        | (m, c0) :: rest =>
          if 0 < m then
            let top := (((m, c0) :: rest).filter (fun p => p.1 == m)).map (fun p => p.2)
            match top with
            | [] => top
            | c :: cs =>
              let minAbs := minAbstractionOf c cs
              top.filter (fun ct => abstraction_level ct.sef == minAbs)
          else cands
    if mains.isEmpty then finals.take 1 else mains

/-! ### Structure assembly and rendering -/

/-- The interpretation structure of `_build_structure_iterative`:
`{sef, positions, words, left, right}` plus the `words_with_senses`
field that `_add_senses_to_structure` may attach. -/
inductive Tree where
  | node (sef : SEF) (positions : Nat × Nat × Nat) (words : String × String × String)
      (wordsWithSenses : Option (String × String × String))
      (left : Option Tree) (right : Option Tree)

/-- SEF of a structure node. -/
def Tree.sefOf : Tree → SEF
  | .node s _ _ _ _ _ => s

/-- Positions of a structure node. -/
def Tree.positionsOf : Tree → Nat × Nat × Nat
  | .node _ p _ _ _ _ => p

/-- Left child of a structure node. -/
def Tree.leftOf : Tree → Option Tree
  | .node _ _ _ _ l _ => l

/-- Right child of a structure node. -/
def Tree.rightOf : Tree → Option Tree
  | .node _ _ _ _ _ r => r

/-- Whether a structure node has any child. -/
def Tree.hasChild : Tree → Bool
  | .node _ _ _ _ l r => l.isSome || r.isSome

/-- `_choose_best_modifier`: first modifier attaining the minimal
abstraction level (strict comparison keeps the earlier one on ties). -/
def choose_best_modifier (c : ComplexTriple) (rest : List ComplexTriple) : ComplexTriple :=
  rest.foldl (fun best m =>
    if abstraction_level m.sef < abstraction_level best.sef then m else best) c

/-- Positive positions of a triple (`tuple(p for p in positions if p > 0)`). -/
def positivePositions (ct : ComplexTriple) : List Nat :=
  [ct.leftPos, ct.relPos, ct.rightPos].filter (fun p => 0 < p)

/-- `_build_structure_iterative`, fuel-bounded: mark the root's
positive positions as seen, gather the unseen `MOD` triples targeting
the root's left and right argument positions, attach the least abstract
one on each side and recurse with a copy of the seen set.  The fuel
only bounds the recursion depth; every call made in this development
has fuel to spare (the depth is at most the number of distinct positive
positions, itself at most `3 * |all|`). -/
def build_structure : Nat → ComplexTriple → List ComplexTriple → List Nat → Tree
  | 0, root, _, _ => .node root.sef root.positions root.words none none none
  | fuel + 1, root, all, seen =>
    let seen2 := seen ++ positivePositions root
    let unseen := fun (ct : ComplexTriple) =>
      decide (ct ≠ root) && (positivePositions ct).all (fun p => ¬ seen2.contains p)
    let leftMods := all.filter (fun ct =>
      unseen ct && ct.sef.relation == "MOD" && ct.leftPos == root.leftPos)
    let rightMods := all.filter (fun ct =>
      unseen ct && ct.sef.relation == "MOD" && ct.leftPos == root.rightPos)
    let leftChild := match leftMods with
      | [] => none
      | c :: cs => some (build_structure fuel (choose_best_modifier c cs) all seen2)
    let rightChild := match rightMods with
      | [] => none
      | c :: cs => some (build_structure fuel (choose_best_modifier c cs) all seen2)
    .node root.sef root.positions root.words none leftChild rightChild

/-- `generate_structures`: one structure per selected main triple, each
built over the final triples starting from an empty seen set. -/
def generate_structures (finals : List ComplexTriple) (table : ClassTable) : List Tree :=
  if finals.isEmpty then []
  else (generate_main_triples finals table).map (fun mt =>
    build_structure (3 * finals.length + 3) mt finals [])

/-- `SemanticAnalyzer.analyze` end to end over the seed lexicon:
tokenize, build the class table, run the four SEF stages, and generate
one structure per root candidate. -/
def analyze (sentence : String) : List Tree :=
  let tokens := tokenize sentence
  let (table, _) := buildClassTable seedLexicon tokens
  let relevant := get_relevant_sefs sefCatalog (table.map (fun p => p.2.classes))
  let complexTriples := create_complex_triples relevant table
  let filtered := filter_by_order complexTriples
  let finals := eliminate_abstract_duplicates filtered
  generate_structures finals table

/-- The class table `analyze` builds for a sentence. -/
def analyzeTable (sentence : String) : ClassTable :=
  (buildClassTable seedLexicon (tokenize sentence)).1

/-! ### `select_word_senses` and rendering -/

/-- `_collect_sefs`: every `(sef, positions)` pair used in a
structure, root first, left subtree before right. -/
def collect_sefs : Tree → List (SEF × (Nat × Nat × Nat))
  | .node s p _ _ l r =>
    (s, p) ::
      ((match l with | some c => collect_sefs c | none => []) ++
       (match r with | some c => collect_sefs c | none => []))

/-- Membership of a position in a positions tuple
(Python `pos in positions`). -/
def inPositions (pos : Nat) (p : Nat × Nat × Nat) : Bool :=
  pos == p.1 || pos == p.2.1 || pos == p.2.2

/-- Per-sense score of `select_word_senses` (lines 408-415): one point
per relevant SEF whose left (respectively right) filler is this
position and whose left (respectively right) tag the sense matches;
the two tests are chained with `elif`. -/
def senseScore (pos : Nat) (relevantSefs : List (SEF × (Nat × Nat × Nat)))
    (sense : WordSense) : Nat :=
  relevantSefs.foldl (fun sc su =>
    let (sef, p) := su
    if pos == p.1 && sense.matchesClass sef.left then sc + 1
    else if pos == p.2.2 && sense.matchesClass sef.right then sc + 1
    else sc) 0

/-- The `best_sense` loop of `select_word_senses`: starting from a best
score of `-1`, keep the first sense strictly improving it; `none` only
when there are no senses at all. -/
def pickBestSense (pos : Nat) (relevantSefs : List (SEF × (Nat × Nat × Nat)))
    (senses : List WordSense) : Option WordSense :=
  (senses.foldl (fun (acc : Option WordSense × Int) sense =>
    let sc := (senseScore pos relevantSefs sense : Int)
    if acc.2 < sc then (some sense, sc) else acc) (none, -1)).1

/-- The `sense_map` of `select_word_senses`: for each table position,
the best-scoring sense against the SEFs whose positions mention it. -/
def buildSenseMap (tree : Tree) (table : ClassTable) : List (Nat × WordSense) :=
  let sefsUsed := collect_sefs tree
  table.foldl (fun sm p =>
    let relevantSefs := sefsUsed.filter (fun su => inPositions p.1 su.2)
    match pickBestSense p.1 relevantSefs p.2.senses with
    | some s => sm ++ [(p.1, s)]
    | none => sm) []

/-- Dict access `sense_map.get(pos)`. -/
def senseMapGet (sm : List (Nat × WordSense)) (pos : Nat) : Option WordSense :=
  (sm.find? (fun p => p.1 == pos)).map (fun p => p.2)

/-- `_add_senses_to_structure`: annotate the left and right words with
`word_senseNumber` when the sense map covers their positions, and
recurse into the children. -/
def add_senses_to_structure (sm : List (Nat × WordSense)) : Tree → Tree
  | .node sef p w _ l r =>
    let w0 := match senseMapGet sm p.1 with
      | some s => s.word ++ "_" ++ toString s.senseNum
      | none => w.1
    let w2 := match senseMapGet sm p.2.2 with
      | some s => s.word ++ "_" ++ toString s.senseNum
      | none => w.2.2
    .node sef p w (some (w0, w.2.1, w2))
      (match l with | some c => some (add_senses_to_structure sm c) | none => none)
      (match r with | some c => some (add_senses_to_structure sm c) | none => none)

/-- `select_word_senses` on a structure produced by `analyze`
(the `None`-input guard of the source is the `Option.map` in callers;
the unreachable duplicate body after the first `return` is dead code
and not embedded). -/
def select_word_senses (tree : Tree) (table : ClassTable) : Tree :=
  add_senses_to_structure (buildSenseMap tree table) tree

/-- `_format_structure`: render `(LEFT RELATION RIGHT)` with children
rendered recursively and leaf words upper-cased. -/
def format_structure : Tree → String
  | .node _ _ w _ l r =>
    let ls := match l with | some c => format_structure c | none => strToUpper w.1
    let rs := match r with | some c => format_structure c | none => strToUpper w.2.2
    "(" ++ ls ++ " " ++ strToUpper w.2.1 ++ " " ++ rs ++ ")"

/-- `format_interpretation` on the typed structures the pipeline
produces: the falsy guard returns the sentinel, otherwise the recursive
rendering. -/
def format_interpretation : Option Tree → String
  | none => "NO INTERPRETATION"
  | some t => format_structure t

/-- `_format_with_senses_recursive`: like `_format_structure` but
preferring the `words_with_senses` annotation when present. -/
def format_with_senses_structure : Tree → String
  | .node _ _ w wws l r =>
    let wu := match wws with | some ws => ws | none => w
    let ls := match l with | some c => format_with_senses_structure c | none => strToUpper wu.1
    let rs := match r with | some c => format_with_senses_structure c | none => strToUpper wu.2.2
    "(" ++ ls ++ " " ++ strToUpper wu.2.1 ++ " " ++ rs ++ ")"

/-- `format_with_senses` on the typed structures. -/
def format_with_senses : Option Tree → String
  | none => "NO INTERPRETATION"
  | some t => format_with_senses_structure t

/-! ### Dict-level model of the formatting functions

`format_interpretation` and `format_with_senses` are also modelled over
raw Python dict structures, where a key can be absent, so that the
behaviour on malformed structures (missing keys) is expressible:
accessing an absent key raises `KeyError`, embedded as `Except.error`.
A child slot distinguishes an absent `left`/`right` key from a stored
`None` and from a stored sub-dict. -/

mutual

/-- A structure dict as the formatting functions receive it: each of
the five keys may be absent. -/
inductive DynStruct where
  | mk (positions : Option (Nat × Nat × Nat))
      (words : Option (String × String × String))
      (wordsWithSenses : Option (String × String × String))
      (left : DynChild) (right : DynChild)

/-- Value stored under a child key: the key may be absent, hold
`None`, or hold a sub-dict. -/
inductive DynChild where
  | absentKey
  | noneVal
  | nodeVal (s : DynStruct)

end

/-- Value of the `positions` key, when present. -/
def DynStruct.positionsOf : DynStruct → Option (Nat × Nat × Nat)
  | .mk p _ _ _ _ => p

/-- Value of the `words` key, when present. -/
def DynStruct.wordsOf : DynStruct → Option (String × String × String)
  | .mk _ w _ _ _ => w

/-- Value of the `words_with_senses` key, when present. -/
def DynStruct.wordsWithSensesOf : DynStruct → Option (String × String × String)
  | .mk _ _ s _ _ => s

/-- Python truthiness of a structure dict: an empty dict is falsy. -/
def DynStruct.isEmptyDict : DynStruct → Bool
  | .mk p w s l r =>
    p.isNone && w.isNone && s.isNone &&
      (match l with | .absentKey => true | _ => false) &&
      (match r with | .absentKey => true | _ => false)

mutual

/-- `_format_structure` over raw dicts: the falsy guard renders `""`;
then `struct['positions']`, `struct['words']`, `struct['left']` and
`struct['right']` are accessed in that order, raising `KeyError` on an
absent key; a truthy child is rendered recursively, otherwise the leaf
word is upper-cased. -/
def formatStructureDyn : DynStruct → Except String String
  | .mk p w wws l r =>
    if (DynStruct.mk p w wws l r).isEmptyDict then .ok ""
    else
      match p with
      | none => .error "KeyError: positions"
      | some _ =>
        match w with
        | none => .error "KeyError: words"
        | some wv =>
          match formatChildDyn l "left" wv.1 with
          | .error e => .error e
          | .ok ls =>
            match formatChildDyn r "right" wv.2.2 with
            | .error e => .error e
            | .ok rs => .ok ("(" ++ ls ++ " " ++ strToUpper wv.2.1 ++ " " ++ rs ++ ")")

/-- Rendering of one child slot by `_format_structure`: an absent key
raises, a falsy value (stored `None` or empty dict) renders the leaf
word upper-cased, a truthy sub-dict is rendered recursively. -/
def formatChildDyn : DynChild → String → String → Except String String
  | .absentKey, key, _ => .error ("KeyError: " ++ key)
  | .noneVal, _, word => .ok (strToUpper word)
  | .nodeVal c, _, word =>
    if c.isEmptyDict then .ok (strToUpper word) else formatStructureDyn c

end

/-- `format_interpretation` over raw dicts: the falsy guard returns the
sentinel, otherwise `_format_structure` runs (and any `KeyError` it
raises propagates). -/
def formatInterpretationDyn : Option DynStruct → Except String String
  | none => .ok "NO INTERPRETATION"
  | some s => if s.isEmptyDict then .ok "NO INTERPRETATION" else formatStructureDyn s

mutual

/-- `_format_with_senses_recursive` over raw dicts: prefers the
`words_with_senses` key, falling back to a `struct['words']` access
that raises when both are absent; children as in
`formatStructureDyn`. -/
def formatWithSensesDyn : DynStruct → Except String String
  | .mk p w wws l r =>
    if (DynStruct.mk p w wws l r).isEmptyDict then .ok ""
    else
      match wws, w with
      | none, none => .error "KeyError: words"
      | some wv, _ | none, some wv =>
        match formatSensesChildDyn l "left" wv.1 with
        | .error e => .error e
        | .ok ls =>
          match formatSensesChildDyn r "right" wv.2.2 with
          | .error e => .error e
          | .ok rs => .ok ("(" ++ ls ++ " " ++ strToUpper wv.2.1 ++ " " ++ rs ++ ")")

/-- Child rendering for `_format_with_senses_recursive`. -/
def formatSensesChildDyn : DynChild → String → String → Except String String
  | .absentKey, key, _ => .error ("KeyError: " ++ key)
  | .noneVal, _, word => .ok (strToUpper word)
  | .nodeVal c, _, word =>
    if c.isEmptyDict then .ok (strToUpper word) else formatWithSensesDyn c

end

/-- `format_with_senses` over raw dicts. -/
def formatWithSensesInterpDyn : Option DynStruct → Except String String
  | none => .ok "NO INTERPRETATION"
  | some s => if s.isEmptyDict then .ok "NO INTERPRETATION" else formatWithSensesDyn s

/-! ### Root selection as the specification words it

`specScore` and `specMainTriples` restate §4.3 step 4 of the
specification (the text of claim C5) with the literal
`max(0, 1 - index)` bonus over the integers; the claim theorem proves
them extensionally equal to the embedded `scoreTriple` /
`generate_main_triples`. -/

/-- The specification's specificity bonus `max(0, 1 - index)`. -/
def specBonus (idx : Nat) : Int := max 0 (1 - (idx : Int))

/-- Relation part of the specification score: `3 + max(0, 1 - index)`
when the relation-position word has a sense whose semantic classes
contain the relation tag. -/
def specRelPart (table : ClassTable) (ct : ComplexTriple) : Int :=
  if ct.relPos ≠ 0 then
    match tableGet table ct.relPos with
    | some info =>
      match info.senses.find? (fun vs => vs.semanticClasses.contains ct.sef.relation) with
      | some vs => 3 + specBonus (idxOf ct.sef.relation vs.semanticClasses)
      | none => 0
    | none => 0
  else 0

/-- Argument part of the specification score: `2 + max(0, 1 - index)`
for the first sense matching the tag, the bonus applying when the tag
occurs among the sense's semantic classes. -/
def specArgPart (table : ClassTable) (pos : Nat) (tag : String) : Int :=
  if pos ≠ 0 then
    match tableGet table pos with
    | some info =>
      match info.senses.find? (fun s => s.matchesClass tag) with
      | some s =>
        if s.semanticClasses.contains tag then 2 + specBonus (idxOf tag s.semanticClasses)
        else (2 : Int)
      | none => 0
    | none => 0
  else 0

/-- Candidate score as the specification describes it: +3 plus the
bonus when the relation-position word has a sense whose semantic
classes contain the relation tag; +2 plus the analogous bonus for a
left-position (right-position) sense matching the left (right) tag. -/
def specScore (table : ClassTable) (ct : ComplexTriple) : Int :=
  specRelPart table ct + specArgPart table ct.leftPos ct.sef.left +
    specArgPart table ct.rightPos ct.sef.right

/-- Maximum specification score over a candidate list (scores are
nonnegative, so `0` is a neutral base). -/
def specMaxScore (table : ClassTable) (cands : List ComplexTriple) : Int :=
  (cands.map (specScore table)).foldr max 0

/-- Root selection as the specification words it: all verb-like
candidates of maximal score, ties broken by minimal abstraction level;
a zero maximum falls back to all verb-like candidates; no verb-like
candidate at all falls back to the first final triple. -/
def specMainTriples (finals : List ComplexTriple) (table : ClassTable) :
    List ComplexTriple :=
  if finals.isEmpty then []
  else
    let cands := finals.filter (fun ct => verbRelations.contains ct.sef.relation)
    if cands.isEmpty then finals.take 1
    else
      let m := specMaxScore table cands
      if m = 0 then cands
      else
        let top := cands.filter (fun ct => specScore table ct == m)
        match top with
        | [] => []
        | c :: cs => top.filter (fun ct => abstraction_level ct.sef == minAbstractionOf c cs)

/-! ### Claim theorems: `filter_by_order` (C1, C2, C4) -/

/-- Per-element output count of the `filter_by_order` loop body. -/
theorem filterStep_count (ct x : ComplexTriple) :
    (filterStep ct).count x =
      if x = ct then
        ((if validFirstBlock ct then 1 else 0) +
          (if validSecondBlock ct (validFirstBlock ct) then 1 else 0))
      else 0 := by
  unfold filterStep
  by_cases h1 : validFirstBlock ct = true
  · by_cases h2 : validSecondBlock ct (validFirstBlock ct) = true <;>
      by_cases hx : x = ct <;>
        simp_all [List.count_cons, List.count_nil]
  · rw [Bool.not_eq_true] at h1
    by_cases hx : x = ct <;> simp_all [validSecondBlock_false, List.count_nil]

/-- A `MOVE` triple in subject-object-verb-like order (relation word at
position 1, between nothing): the first rule block of
`filter_by_order` has no `MOVE` case, so the triple is retained. -/
def ctMoveExplicit : ComplexTriple :=
  ⟨⟨"PERSON", "MOVE", "PLACE"⟩, (2, 1, 3), ("men", "walked", "school")⟩

/-- C1, counterexample.  The spec counts `MOVE` among the verb-like
relations, yet `filter_by_order` retains a `MOVE` triple with an
explicit relation position that does not lie between the argument
positions: the invariant `leftPos < relPos < rightPos` fails on a
retained verb-like triple. -/
theorem C1_counterexample :
    ctMoveExplicit ∈ filter_by_order [ctMoveExplicit] ∧
      0 < ctMoveExplicit.relPos ∧
      ¬ (ctMoveExplicit.leftPos < ctMoveExplicit.relPos ∧
          ctMoveExplicit.relPos < ctMoveExplicit.rightPos) := by
  refine ⟨by decide, by decide, by decide⟩

/-- C1, amended.  Every triple retained by `filterByOrder` with a
verb-like relation other than `MOVE` (that is, one of `V`, `HIT`,
`CONSUME`, `BE`, `EQUIV`) and an explicit relation position satisfies
`leftPos < relPos < rightPos`, and every retained `MOD` triple whose
SEF right tag is in the adjective/article family satisfies
`rightPos < leftPos`; `MOVE` triples are exempt because the first rule
block never tests them. -/
theorem C1_order_invariant_amended (cts : List ComplexTriple) (ct : ComplexTriple)
    (hmem : ct ∈ filter_by_order cts) :
    (ct.sef.relation ∈ (["V", "HIT", "CONSUME", "BE", "EQUIV"] : List String) →
        0 < ct.relPos →
        ct.leftPos < ct.relPos ∧ ct.relPos < ct.rightPos) ∧
    (ct.sef.relation = "MOD" →
        ct.sef.right ∈ (["ADJ", "ART", "EMOTION", "ATTITUDE", "AGE"] : List String) →
        ct.rightPos < ct.leftPos) := by
  have hv := (mem_filter_by_order.mp hmem).2
  constructor
  · intro hrel hpos
    have hne : ct.relPos ≠ 0 := Nat.pos_iff_ne_zero.mp hpos
    simp only [List.mem_cons, List.not_mem_nil, or_false] at hrel
    rcases hrel with h | h | h | h | h <;>
      · simp only [validFirstBlock, h] at hv
        simp [hne] at hv
        omega
  · intro hrel hfam
    simp only [List.mem_cons, List.not_mem_nil, or_false] at hfam
    rcases hfam with h | h | h | h | h <;>
      · simp only [validFirstBlock, hrel, h] at hv
        simp at hv
        omega

/-- An `(N MOD ADJ)` triple in legal order: it passes both rule blocks
of `filter_by_order` and is appended twice. -/
def ctAdjTwice : ComplexTriple :=
  ⟨⟨"N", "MOD", "ADJ"⟩, (2, 0, 1), ("men", "MOD", "old")⟩

/-- An `(N PREP N)` triple violating the `PREP` ordering rule: only the
second rule block tests `PREP`, and its append is preceded by the
unconditional first-block append, so the triple is still retained
once. -/
def ctPrepBad : ComplexTriple :=
  ⟨⟨"N", "PREP", "N"⟩, (3, 0, 1), ("men", "PREP", "school")⟩

/-- C2, counterexample.  `filterByOrder` is not a single-pass filter:
a legal `(N MOD ADJ)` triple occurs twice in the output, and an
`(N PREP N)` triple that violates the `PREP` order rule (an applicable
rule of the second block) is still retained once. -/
theorem C2_counterexample :
    (filter_by_order [ctAdjTwice]).count ctAdjTwice = 2 ∧
      ctPrepBad ∈ filter_by_order [ctPrepBad] ∧
      ¬ (ctPrepBad.leftPos < ctPrepBad.rightPos) := by
  refine ⟨by decide, by decide, by decide⟩

/-- C2, amended.  Membership in the output of `filterByOrder` is
decided by the first rule block alone, and the multiplicity of a triple
is its input multiplicity times 0, 1 or 2: 0 when the first block
rejects it, 2 when both blocks accept it, 1 when only the first block
does.  The second block therefore never changes which triples are
retained, but it does duplicate the fully legal ones, and triples
violating only second-block rules survive. -/
theorem C2_single_pass_amended (cts : List ComplexTriple) (x : ComplexTriple) :
    (x ∈ filter_by_order cts ↔ x ∈ cts ∧ validFirstBlock x = true) ∧
    (filter_by_order cts).count x =
      cts.count x *
        (if validFirstBlock x then (if validSecondBlock x true then 2 else 1) else 0) := by
  refine ⟨mem_filter_by_order, ?_⟩
  induction cts with
  | nil => simp [filter_by_order]
  | cons a t ih =>
    have hstep : filter_by_order (a :: t) = filterStep a ++ filter_by_order t := by
      simp [filter_by_order]
    rw [hstep, List.count_append, ih, filterStep_count, List.count_cons]
    by_cases hx : x = a
    · subst hx
      by_cases h1 : validFirstBlock x = true
      · by_cases h2 : validSecondBlock x true = true <;> simp_all <;> ring
      · rw [Bool.not_eq_true] at h1
        simp_all [validSecondBlock_false]
    · have : (a == x) = false := by
        simp [beq_eq_false_iff_ne]
        exact fun h => hx h.symm
      simp [hx, this]

/-- A `MOVE` triple with implicit relation and the arguments in
reversed order: the first rule block has no `MOVE` case, so it is
retained although `leftPos > rightPos`. -/
def ctMoveImplicit : ComplexTriple :=
  ⟨⟨"PERSON", "MOVE", "PLACE"⟩, (3, 0, 1), ("men", "MOVE", "school")⟩

/-- C4, counterexample.  The claim includes `MOVE` among the relations
for which an implicit-relation triple is retained iff
`leftPos < rightPos`; but `filter_by_order` retains a `MOVE` triple
with `leftPos > rightPos`. -/
theorem C4_counterexample :
    ctMoveImplicit.sef.relation ∈
        (["V", "HIT", "CONSUME", "BE", "EQUIV", "MOVE"] : List String) ∧
      ctMoveImplicit.sef.left ∈ (["N", "PERSON", "ANIMAL", "OBJECT"] : List String) ∧
      ctMoveImplicit.relPos = 0 ∧
      ¬ (ctMoveImplicit.leftPos < ctMoveImplicit.rightPos) ∧
      ctMoveImplicit ∈ filter_by_order [ctMoveImplicit] := by
  refine ⟨by decide, by decide, by decide, by decide, by decide⟩

/-- C4, amended.  For relations `V`, `HIT`, `CONSUME`, `BE`, `EQUIV`
(`MOVE` excluded: the first rule block never tests it, so implicit
`MOVE` triples are always retained) with a nominal-like left tag and an
implicit relation position, `filterByOrder` retains the triple iff
`leftPos < rightPos`. -/
theorem C4_implicit_relation_amended (cts : List ComplexTriple) (ct : ComplexTriple)
    (hrel : ct.sef.relation ∈ (["V", "HIT", "CONSUME", "BE", "EQUIV"] : List String))
    (_hleft : ct.sef.left ∈ (["N", "PERSON", "ANIMAL", "OBJECT"] : List String))
    (himp : ct.relPos = 0) :
    ct ∈ filter_by_order cts ↔ ct ∈ cts ∧ ct.leftPos < ct.rightPos := by
  rw [mem_filter_by_order]
  have hvb : validFirstBlock ct = true ↔ ct.leftPos < ct.rightPos := by
    simp only [List.mem_cons, List.not_mem_nil, or_false] at hrel
    rcases hrel with h | h | h | h | h <;>
      · simp [validFirstBlock, h, himp]
  rw [hvb]

/-- C1, witness: the amended invariant applied to the concrete filtered
`(PERSON HIT PERSON)` triple of the worked example. -/
theorem C1_order_invariant_amended_witness :
    (⟨⟨"PERSON", "HIT", "PERSON"⟩, (3, 4, 7), ("pitcher", "struck", "batter")⟩ : ComplexTriple).leftPos <
        (⟨⟨"PERSON", "HIT", "PERSON"⟩, (3, 4, 7), ("pitcher", "struck", "batter")⟩ : ComplexTriple).relPos :=
  ((C1_order_invariant_amended
      [⟨⟨"PERSON", "HIT", "PERSON"⟩, (3, 4, 7), ("pitcher", "struck", "batter")⟩]
      ⟨⟨"PERSON", "HIT", "PERSON"⟩, (3, 4, 7), ("pitcher", "struck", "batter")⟩
      (by decide)).1 (by decide) (by decide)).1

/-- C4, witness: the amended equivalence applied to a concrete implicit
`(N BE N)` triple in legal order. -/
theorem C4_implicit_relation_amended_witness :
    (⟨⟨"N", "BE", "N"⟩, (1, 0, 2), ("men", "BE", "fish")⟩ : ComplexTriple) ∈
      filter_by_order [⟨⟨"N", "BE", "N"⟩, (1, 0, 2), ("men", "BE", "fish")⟩] :=
  (C4_implicit_relation_amended
      [⟨⟨"N", "BE", "N"⟩, (1, 0, 2), ("men", "BE", "fish")⟩]
      ⟨⟨"N", "BE", "N"⟩, (1, 0, 2), ("men", "BE", "fish")⟩
      (by decide) (by decide) (by decide)).mpr ⟨by decide, by decide⟩

/-! ### Claim theorems: `eliminate_abstract_duplicates` (C3) -/

theorem minByAbstraction_mem : ∀ (rest : List ComplexTriple) (c : ComplexTriple),
    minByAbstraction c rest ∈ c :: rest := by
  intro rest
  induction rest with
  | nil => intro c; exact List.mem_singleton.mpr rfl
  | cons a t ih =>
    intro c
    have hfold : minByAbstraction c (a :: t) =
        minByAbstraction (if abstraction_level a.sef < abstraction_level c.sef then a else c) t := rfl
    rw [hfold]
    rcases List.mem_cons.mp
        (ih (if abstraction_level a.sef < abstraction_level c.sef then a else c)) with h2 | h2
    · rw [h2]
      split
      · exact List.mem_cons_of_mem _ (List.mem_cons_self _ _)
      · exact List.mem_cons_self _ _
    · exact List.mem_cons_of_mem _ (List.mem_cons_of_mem _ h2)

theorem minByAbstraction_le : ∀ (rest : List ComplexTriple) (c x : ComplexTriple),
    x ∈ c :: rest →
    abstraction_level (minByAbstraction c rest).sef ≤ abstraction_level x.sef := by
  intro rest
  induction rest with
  | nil =>
    intro c x hx
    have hx2 := List.mem_singleton.mp hx
    subst hx2
    exact Nat.le_refl _
  | cons a t ih =>
    intro c x hx
    have hfold : minByAbstraction c (a :: t) =
        minByAbstraction (if abstraction_level a.sef < abstraction_level c.sef then a else c) t := rfl
    set c2 := if abstraction_level a.sef < abstraction_level c.sef then a else c with hc2
    have hc2c : abstraction_level c2.sef ≤ abstraction_level c.sef := by
      rw [hc2]; split <;> omega
    have hc2a : abstraction_level c2.sef ≤ abstraction_level a.sef := by
      rw [hc2]; split <;> omega
    have hmin2 : abstraction_level (minByAbstraction c2 t).sef ≤ abstraction_level c2.sef :=
      ih c2 c2 (List.mem_cons_self _ _)
    rw [hfold]
    rcases List.mem_cons.mp hx with h | h
    · subst h; exact le_trans hmin2 hc2c
    · rcases List.mem_cons.mp h with h2 | h2
      · subst h2; exact le_trans hmin2 hc2a
      · exact ih c2 x (List.mem_cons_of_mem _ h2)

theorem mem_positionKeys_aux :
    ∀ (cts : List ComplexTriple) (acc : List (Nat × Nat × Nat)) (p : Nat × Nat × Nat),
    p ∈ cts.foldl
        (fun ks ct => if ct.positions ∈ ks then ks else ks ++ [ct.positions]) acc ↔
      p ∈ acc ∨ ∃ ct ∈ cts, ct.positions = p := by
  intro cts
  induction cts with
  | nil => intro acc p; simp
  | cons a t ih =>
    intro acc p
    simp only [List.foldl_cons]
    by_cases ha : a.positions ∈ acc
    · rw [if_pos ha, ih]
      constructor
      · rintro (h | ⟨ct, hct, hp⟩)
        · exact Or.inl h
        · exact Or.inr ⟨ct, List.mem_cons_of_mem _ hct, hp⟩
      · rintro (h | ⟨ct, hct, hp⟩)
        · exact Or.inl h
        · rcases List.mem_cons.mp hct with h2 | h2
          · subst h2; exact Or.inl (hp ▸ ha)
          · exact Or.inr ⟨ct, h2, hp⟩
    · rw [if_neg ha, ih]
      constructor
      · rintro (h | ⟨ct, hct, hp⟩)
        · rcases List.mem_append.mp h with h2 | h2
          · exact Or.inl h2
          · exact Or.inr ⟨a, List.mem_cons_self _ _, (List.mem_singleton.mp h2).symm⟩
        · exact Or.inr ⟨ct, List.mem_cons_of_mem _ hct, hp⟩
      · rintro (h | ⟨ct, hct, hp⟩)
        · exact Or.inl (List.mem_append.mpr (Or.inl h))
        · rcases List.mem_cons.mp hct with h2 | h2
          · subst h2
            exact Or.inl (List.mem_append.mpr (Or.inr (List.mem_singleton.mpr hp.symm)))
          · exact Or.inr ⟨ct, h2, hp⟩

theorem mem_positionKeys {cts : List ComplexTriple} {p : Nat × Nat × Nat} :
    p ∈ positionKeys cts ↔ ∃ ct ∈ cts, ct.positions = p := by
  rw [positionKeys, mem_positionKeys_aux]
  simp

/-- The group of a key that occurs in the input is non-empty and all
its members carry that key. -/
theorem posGroup_all {cts : List ComplexTriple} {p : Nat × Nat × Nat} {ct : ComplexTriple}
    (h : ct ∈ cts.filter (fun ct => ct.positions == p)) :
    ct ∈ cts ∧ ct.positions = p := by
  rcases List.mem_filter.mp h with ⟨h1, h2⟩
  exact ⟨h1, by simpa using h2⟩

/-- A duplicate pair for C3: same positions, same abstraction score
(both fully semantic), different SEFs. -/
def ctHitDup : ComplexTriple :=
  ⟨⟨"PERSON", "HIT", "PERSON"⟩, (1, 2, 3), ("pitcher", "struck", "batter")⟩

/-- Companion duplicate for C3 with the identical positions tuple and
an equal abstraction score. -/
def ctConsumeDup : ComplexTriple :=
  ⟨⟨"PERSON", "CONSUME", "ANIMAL"⟩, (1, 2, 3), ("pitcher", "struck", "batter")⟩

/-- C3, counterexample.  Both triples share the positions tuple and the
minimal abstraction score, so the claim requires both to be kept; the
code's `min` keeps only the first. -/
theorem C3_counterexample :
    abstraction_level ctConsumeDup.sef = abstraction_level ctHitDup.sef ∧
      ctConsumeDup.positions = ctHitDup.positions ∧
      eliminate_abstract_duplicates [ctHitDup, ctConsumeDup] = [ctHitDup] ∧
      ctConsumeDup ∉ eliminate_abstract_duplicates [ctHitDup, ctConsumeDup] := by
  refine ⟨by decide, by decide, by decide, by decide⟩

/-- Every triple kept out of a group belongs to the group. -/
theorem keepForGroup_subset : ∀ {g : List ComplexTriple} {x : ComplexTriple},
    x ∈ keepForGroup g → x ∈ g := by
  intro g x h
  match g with
  | [] => simp [keepForGroup] at h
  | [ct] => simpa [keepForGroup] using h
  | c :: c2 :: rest =>
    rcases List.mem_singleton.mp h with rfl
    exact minByAbstraction_mem (c2 :: rest) c

/-- Every triple kept out of a group is minimal in it. -/
theorem keepForGroup_min : ∀ {g : List ComplexTriple} {x : ComplexTriple},
    x ∈ keepForGroup g → ∀ y ∈ g, abstraction_level x.sef ≤ abstraction_level y.sef := by
  intro g x h y hy
  match g with
  | [] => simp [keepForGroup] at h
  | [ct] =>
    rcases List.mem_singleton.mp h with rfl
    rcases List.mem_singleton.mp hy with rfl
    exact Nat.le_refl _
  | c :: c2 :: rest =>
    rcases List.mem_singleton.mp h with rfl
    exact minByAbstraction_le (c2 :: rest) c y hy

/-- A non-empty group keeps exactly one triple. -/
theorem keepForGroup_cons (c : ComplexTriple) (rest : List ComplexTriple) :
    ∃ x, keepForGroup (c :: rest) = [x] := by
  match rest with
  | [] => exact ⟨c, rfl⟩
  | c2 :: rest2 => exact ⟨minByAbstraction c (c2 :: rest2), rfl⟩

/-- Concatenating per-key singleton lists reproduces the key list. -/
theorem flatMap_map_keys {κ β : Type} (keys : List κ) (f : κ → List β) (g : β → κ)
    (h : ∀ p ∈ keys, (f p).map g = [p]) : (keys.flatMap f).map g = keys := by
  induction keys with
  | nil => simp
  | cons a t ih =>
    simp only [List.flatMap_cons, List.map_append]
    rw [h a (List.mem_cons_self _ _), ih (fun p hp => h p (List.mem_cons_of_mem _ hp))]
    rfl

/-- C3, amended.  `eliminateAbstractDuplicates` keeps exactly one
triple per distinct positions tuple (in first-occurrence order): a
group of size one survives unchanged and a larger group contributes
only its first triple of minimal abstraction score - ties are *not*
all kept.  Every kept triple comes from the input and its abstraction
score is ≤ that of every input triple sharing its positions. -/
theorem C3_dedup_amended (cts : List ComplexTriple) :
    ((eliminate_abstract_duplicates cts).map (fun ct => ct.positions) = positionKeys cts) ∧
    (∀ ct ∈ eliminate_abstract_duplicates cts,
      ct ∈ cts ∧
      ∀ ct2 ∈ cts, ct2.positions = ct.positions →
        abstraction_level ct.sef ≤ abstraction_level ct2.sef) := by
  constructor
  · rw [eliminate_abstract_duplicates]
    refine flatMap_map_keys _ _ _ ?_
    intro p hp
    rcases mem_positionKeys.mp hp with ⟨ct, hct, hpos⟩
    have hmem : ct ∈ cts.filter (fun c => c.positions == p) :=
      List.mem_filter.mpr ⟨hct, by simpa using hpos⟩
    rcases hfil : cts.filter (fun c => c.positions == p) with _ | ⟨c, rest⟩
    · rw [hfil] at hmem; simp at hmem
    · rcases keepForGroup_cons c rest with ⟨x, hx⟩
      have hxg : x ∈ cts.filter (fun c => c.positions == p) := by
        rw [hfil]
        exact keepForGroup_subset (g := c :: rest) (hx ▸ List.mem_singleton.mpr rfl)
      rw [hfil, hx]
      simp [(posGroup_all hxg).2]
  · intro ct hct
    rw [eliminate_abstract_duplicates] at hct
    rcases List.mem_flatMap.mp hct with ⟨p, _hp, hmem⟩
    have hing : ct ∈ cts.filter (fun c => c.positions == p) := keepForGroup_subset hmem
    have hg := posGroup_all hing
    refine ⟨hg.1, ?_⟩
    intro ct2 hct2 hpos2
    have h2 : ct2 ∈ cts.filter (fun c => c.positions == p) :=
      List.mem_filter.mpr ⟨hct2, by simp [hpos2, hg.2]⟩
    exact keepForGroup_min hmem ct2 h2

/-- C3, witness: the amended statement applied to the concrete
duplicate pair; the kept triple is in the input and minimal. -/
theorem C3_dedup_amended_witness :
    ctHitDup ∈ [ctHitDup, ctConsumeDup] ∧
      abstraction_level ctHitDup.sef ≤ abstraction_level ctConsumeDup.sef :=
  ⟨((C3_dedup_amended [ctHitDup, ctConsumeDup]).2 ctHitDup (by decide)).1,
    ((C3_dedup_amended [ctHitDup, ctConsumeDup]).2 ctHitDup (by decide)).2
      ctConsumeDup (by decide) (by decide)⟩

/-! ### Claim theorems: `get_relevant_sefs` (C7) -/

/-- An SEF's left or right tag occurs among the sentence's class tags
(step B of the relevance filter). -/
def sefInUnion (wordClasses : List (List String)) (t : SEF) : Bool :=
  (wordClasses.flatMap id).contains t.left || (wordClasses.flatMap id).contains t.right

/-- Number of word positions whose class set matches the SEF's left or
right tag (the per-SEF tally of step C). -/
def sefMatchCount (wordClasses : List (List String)) (t : SEF) : Nat :=
  (wordClasses.filter (fun classes =>
    classes.contains t.left || classes.contains t.right)).length

/-- C7.  `getRelevantSefs` returns exactly the catalog SEFs whose left
or right tag occurs among the sentence's class tags and is matched by
at least two distinct word positions; when no SEF passes that majority
filter it returns, unfiltered, every catalog SEF whose left or right
tag occurs among the sentence's class tags. -/
theorem C7_relevant_sefs (sefs : List SEF) (wordClasses : List (List String)) (s : SEF) :
    ((∃ t ∈ sefs, sefInUnion wordClasses t = true ∧ 2 ≤ sefMatchCount wordClasses t) →
      (s ∈ get_relevant_sefs sefs wordClasses ↔
        s ∈ sefs ∧ sefInUnion wordClasses s = true ∧ 2 ≤ sefMatchCount wordClasses s)) ∧
    ((¬ ∃ t ∈ sefs, sefInUnion wordClasses t = true ∧ 2 ≤ sefMatchCount wordClasses t) →
      (s ∈ get_relevant_sefs sefs wordClasses ↔
        s ∈ sefs ∧ sefInUnion wordClasses s = true)) := by
  have hchar : ∀ x : SEF,
      x ∈ sefs.filter (fun t => sefInUnion wordClasses t) ↔
        x ∈ sefs ∧ sefInUnion wordClasses x = true := fun x => List.mem_filter
  have hchar2 : ∀ x : SEF,
      x ∈ (sefs.filter (fun t => sefInUnion wordClasses t)).filter
          (fun t => decide (2 ≤ sefMatchCount wordClasses t)) ↔
        x ∈ sefs ∧ sefInUnion wordClasses x = true ∧ 2 ≤ sefMatchCount wordClasses x := by
    intro x
    rw [List.mem_filter, List.mem_filter]
    simp [and_assoc]
  have heq : get_relevant_sefs sefs wordClasses =
      if ((sefs.filter (fun t => sefInUnion wordClasses t)).filter
            (fun t => decide (2 ≤ sefMatchCount wordClasses t))).isEmpty
      then sefs.filter (fun t => sefInUnion wordClasses t)
      else (sefs.filter (fun t => sefInUnion wordClasses t)).filter
            (fun t => decide (2 ≤ sefMatchCount wordClasses t)) := rfl
  rw [heq]
  constructor
  · intro hex
    have hne : ¬ ((sefs.filter (fun t => sefInUnion wordClasses t)).filter
        (fun t => decide (2 ≤ sefMatchCount wordClasses t))).isEmpty = true := by
      rcases hex with ⟨t, ht, hu, hc⟩
      intro hempty
      rw [List.isEmpty_iff] at hempty
      have : t ∈ (sefs.filter (fun t => sefInUnion wordClasses t)).filter
          (fun t => decide (2 ≤ sefMatchCount wordClasses t)) := (hchar2 t).mpr ⟨ht, hu, hc⟩
      rw [hempty] at this
      exact List.not_mem_nil _ this
    rw [if_neg hne]
    exact hchar2 s
  · intro hnex
    have hemp : ((sefs.filter (fun t => sefInUnion wordClasses t)).filter
        (fun t => decide (2 ≤ sefMatchCount wordClasses t))).isEmpty = true := by
      rw [List.isEmpty_iff, List.eq_nil_iff_forall_not_mem]
      intro t ht
      rcases (hchar2 t).mp ht with ⟨h1, h2, h3⟩
      exact hnex ⟨t, h1, h2, h3⟩
    rw [if_pos hemp]
    exact hchar s

/-- C7, witness: the majority-filtered characterization applied to a
one-SEF catalog over two matching word positions. -/
theorem C7_relevant_sefs_witness :
    (⟨"N", "V", "N"⟩ : SEF) ∈
      get_relevant_sefs [⟨"N", "V", "N"⟩] [["N"], ["N", "V"]] :=
  ((C7_relevant_sefs [⟨"N", "V", "N"⟩] [["N"], ["N", "V"]] ⟨"N", "V", "N"⟩).1
      ⟨⟨"N", "V", "N"⟩, by decide, by decide, by decide⟩).mpr
    ⟨by decide, by decide, by decide⟩

/-! ### Claim theorems: lexicon fallback (C8) -/

theorem lexGet_cons (e : String × List WordSense) (rest : Lexicon) (k : String) :
    lexGet (e :: rest) k = if e.1 == k then e.2 else lexGet rest k := by
  rcases he : (e.1 == k) with _ | _ <;> simp [lexGet, List.find?_cons, he]

theorem lexGet_map_append (k : String) (s : WordSense) :
    ∀ (lex : Lexicon), (lex.find? (fun e => e.1 == k)).isSome →
    lexGet (lex.map (fun e => if e.1 == k then (e.1, e.2 ++ [s]) else e)) k =
      lexGet lex k ++ [s] := by
  intro lex
  induction lex with
  | nil => intro hf; simp [List.find?] at hf
  | cons e rest ih =>
    intro hf
    by_cases he : (e.1 == k) = true
    · rw [List.map_cons, if_pos he, lexGet_cons, lexGet_cons, if_pos he, if_pos he]
    · have he2 : (e.1 == k) = false := by simpa using he
      rw [List.map_cons, if_neg he, lexGet_cons, lexGet_cons, if_neg he, if_neg he]
      have hf2 : (rest.find? (fun e => e.1 == k)).isSome := by
        simp only [List.find?_cons, he2] at hf
        exact hf
      exact ih hf2

theorem lexGet_append_new (k : String) (v : List WordSense) :
    ∀ (lex : Lexicon), (lex.find? (fun e => e.1 == k)).isSome = false →
    lexGet (lex ++ [(k, v)]) k = v := by
  intro lex
  induction lex with
  | nil => simp [lexGet, List.find?]
  | cons e rest ih =>
    intro hf
    by_cases he : (e.1 == k) = true
    · simp only [List.find?_cons, he] at hf
      simp at hf
    · have he2 : (e.1 == k) = false := by simpa using he
      simp only [List.find?_cons, he2] at hf
      rw [List.cons_append, lexGet_cons, if_neg he]
      exact ih hf

theorem lexGet_none_of_find_none (k : String) (lex : Lexicon)
    (hf : (lex.find? (fun e => e.1 == k)).isSome = false) :
    lexGet lex k = [] := by
  rcases hfind : lex.find? (fun e => e.1 == k) with _ | e
  · rw [lexGet, hfind]
  · rw [hfind] at hf; simp at hf

/-- `add_sense` appends the new sense at the end of the word's sense
list, as seen through `lexGet` at the lowercased key. -/
theorem lexGet_add_sense (lex : Lexicon) (w : String) (n : Nat) (sc : String)
    (f sems : List String) :
    lexGet (add_sense lex w n sc f sems) (strToLower w) =
      lexGet lex (strToLower w) ++ [⟨strToLower w, n, sc, f, sems⟩] := by
  rw [add_sense]
  by_cases hf : (lex.find? (fun e => e.1 == strToLower w)).isSome
  · rw [if_pos hf]
    exact lexGet_map_append (strToLower w) _ lex hf
  · rw [if_neg hf]
    rw [Bool.not_eq_true] at hf
    rw [lexGet_append_new _ _ lex hf, lexGet_none_of_find_none _ lex hf]
    rfl

theorem findSome?_some_imp {α β : Type} (f : α → Option β) :
    ∀ (l : List α) (b : β), l.findSome? f = some b → ∃ a ∈ l, f a = some b := by
  intro l
  induction l with
  | nil => intro b h; simp [List.findSome?] at h
  | cons a t ih =>
    intro b h
    rcases hfa : f a with _ | c
    · simp only [List.findSome?_cons, hfa] at h
      rcases ih b h with ⟨x, hx, hfx⟩
      exact ⟨x, List.mem_cons_of_mem _ hx, hfx⟩
    · simp only [List.findSome?_cons, hfa] at h
      exact ⟨a, List.mem_cons_self _ _, by rw [hfa, h]⟩

/-- A non-empty sense list yields a non-empty class set: every sense
contributes at least its syntactic class. -/
theorem classesOf_ne_nil {senses : List WordSense} (h : senses ≠ []) :
    classesOf senses ≠ [] := by
  rcases senses with _ | ⟨a, t⟩
  · exact absurd rfl h
  · simp [classesOf]

/-- C8.  For every (lowercased) input token, the lookup chain of
`analyze` - lexicon lookup, the fixed-order surface-form reduction
retries, and the generic-sense fallback - yields at least one sense
and a non-empty class set; and `addGenericSense` appends a sense with
syntactic class `N`, semantic classes `[OBJECT]` and sense number
`count(existing senses) + 1`, after which `lookup` is non-empty. -/
theorem C8_fallback_totality (lex : Lexicon) (word : String)
    (h : strToLower word = word) :
    (resolveToken lex word).1 ≠ [] ∧
    classesOf (resolveToken lex word).1 ≠ [] ∧
    (add_generic_sense lex word).2 =
      lookup lex word ++
        [⟨word, (lookup lex word).length + 1, "N", [], ["OBJECT"]⟩] ∧
    lookup (add_generic_sense lex word).1 word ≠ [] := by
  have hgen : (add_generic_sense lex word).2 =
      lookup lex word ++
        [⟨word, (lookup lex word).length + 1, "N", [], ["OBJECT"]⟩] := by
    rw [add_generic_sense]
    simp only [h]
    have := lexGet_add_sense lex word ((lexGet lex word).length + 1) "N" [] ["OBJECT"]
    rw [h] at this
    rw [this]
    rw [lookup, h]
  have hgen_ne : (add_generic_sense lex word).2 ≠ [] := by
    rw [hgen]; simp
  have hlook2 : lookup (add_generic_sense lex word).1 word ≠ [] := by
    rw [lookup, h]
    have h1 : (add_generic_sense lex word).1 = add_sense lex word
        ((lexGet lex word).length + 1) "N" [] ["OBJECT"] := by
      rw [add_generic_sense]; simp only [h]
    rw [h1]
    have := lexGet_add_sense lex word ((lexGet lex word).length + 1) "N" [] ["OBJECT"]
    rw [h] at this
    rw [this]
    simp
  have hres : (resolveToken lex word).1 ≠ [] := by
    rw [resolveToken]
    by_cases hs : (lookup lex word).isEmpty
    · rw [if_pos hs]
      rcases hretry : (surfaceFormCandidates word).findSome? (fun cand =>
          if cand = "" then none
          else
            let s := lookup lex (strToLower cand)
            if s.isEmpty then none else some s) with _ | s
      · simp only [hretry]
        exact hgen_ne
      · simp only [hretry]
        rcases findSome?_some_imp _ _ _ hretry with ⟨cand, _, hf⟩
        by_cases hc : cand = ""
        · rw [if_pos hc] at hf; exact absurd hf (by simp)
        · rw [if_neg hc] at hf
          simp only at hf
          by_cases he : (lookup lex (strToLower cand)).isEmpty
          · rw [if_pos he] at hf; exact absurd hf (by simp)
          · rw [if_neg he] at hf
            have hs2 : s = lookup lex (strToLower cand) := by
              injection hf with h2; exact h2.symm
            rw [hs2]
            intro hnil
            rw [hnil] at he
            exact he rfl
    · rw [if_neg hs]
      intro hnil
      have h2 : lookup lex word = [] := hnil
      rw [h2] at hs
      exact hs rfl
  exact ⟨hres, classesOf_ne_nil hres, hgen, hlook2⟩

/-- C8, witness: the totality statement applied to the unknown token
`xyzzy` over the seed lexicon. -/
theorem C8_fallback_totality_witness :
    (resolveToken seedLexicon "xyzzy").1 ≠ [] :=
  (C8_fallback_totality seedLexicon "xyzzy" (by decide)).1

/-! ### Claim theorems: sense numbers in the seed lexicon (C9) -/

/-- The seed-vocabulary words that `_initialize_lexicon` registers a
second time under an already-used sense number. -/
def dupSeedWords : List String :=
  ["read", "reads", "walk", "walks", "work", "works", "study", "studies",
   "is", "are", "mathematics", "beautiful"]

set_option maxRecDepth 200000 in
/-- C9, counterexample.  The seed lexicon gives `mathematics` two
senses both numbered 1 (lines 91-92 of `lexicon.py`), so sense numbers
are not pairwise distinct per word. -/
theorem C9_counterexample :
    (lookup seedLexicon "mathematics").map (fun s => s.senseNum) = [1, 1] ∧
      ¬ ((lookup seedLexicon "mathematics").map (fun s => s.senseNum)).Nodup := by
  refine ⟨by decide, by decide⟩

set_option maxRecDepth 200000 in
/-- C9, amended.  Sense numbers are pairwise distinct for every word of
the lexicon except the twelve seed words that `_initialize_lexicon`
re-registers under an existing number (`read`, `reads`, `walk`,
`walks`, `work`, `works`, `study`, `studies`, `is`, `are`,
`mathematics`, `beautiful`); each of those twelve carries a duplicated
sense number, because `addSense` appends without deduplication. -/
theorem C9_sense_numbers_amended :
    (∀ w : String, strToLower w ∉ dupSeedWords →
      ((lookup seedLexicon w).map (fun s => s.senseNum)).Nodup) ∧
    (∀ w ∈ dupSeedWords, ¬ ((lookup seedLexicon w).map (fun s => s.senseNum)).Nodup) := by
  constructor
  · have hall : ∀ e ∈ seedLexicon, e.1 ∉ dupSeedWords →
        ((e.2.map (fun s => s.senseNum)).Nodup) := by decide
    intro w h
    rw [lookup]
    rcases hfind : seedLexicon.find? (fun e => e.1 == strToLower w) with _ | e
    · rw [lexGet, hfind]; simp
    · have hmem : e ∈ seedLexicon := List.mem_of_find?_eq_some hfind
      have he1 : e.1 = strToLower w := by
        have := List.find?_some hfind
        simpa using this
      rw [lexGet, hfind]
      exact hall e hmem (he1 ▸ h)
  · decide

set_option maxRecDepth 200000 in
/-- C9, witness: sense-number distinctness applied to `pitcher`, a
legitimately polysemous seed word. -/
theorem C9_sense_numbers_amended_witness :
    ((lookup seedLexicon "pitcher").map (fun s => s.senseNum)).Nodup :=
  C9_sense_numbers_amended.1 "pitcher" (by decide)

/-! ### Claim theorems: formatting error handling (C10) -/

/-- A malformed structure dict for C10: its `words` key is present (so
the dict is truthy) but `positions` is missing. -/
def badStruct : DynStruct :=
  .mk none (some ("pitcher", "struck", "batter")) none .noneVal .noneVal

/-- C10, counterexample.  On a non-empty structure missing its
`positions` key, `format_interpretation` propagates a `KeyError`
instead of returning a sentinel string. -/
theorem C10_counterexample :
    formatInterpretationDyn (some badStruct) = .error "KeyError: positions" ∧
      badStruct.isEmptyDict = false := by
  refine ⟨rfl, rfl⟩

/-- C10, amended.  `formatInterpretation` and `formatWithSenses` return
the sentinel `"NO INTERPRETATION"` for an absent or empty structure;
but on a malformed non-empty structure they can raise rather than
return a sentinel: a missing `positions` key makes
`format_interpretation` propagate a `KeyError`, and a structure missing
both `words_with_senses` and `words` makes `format_with_senses`
propagate one. -/
theorem C10_formatting_amended :
    (formatInterpretationDyn none = .ok "NO INTERPRETATION") ∧
    (formatWithSensesInterpDyn none = .ok "NO INTERPRETATION") ∧
    (∀ s : DynStruct, s.isEmptyDict = true →
      formatInterpretationDyn (some s) = .ok "NO INTERPRETATION" ∧
      formatWithSensesInterpDyn (some s) = .ok "NO INTERPRETATION") ∧
    (∀ s : DynStruct, s.isEmptyDict = false → s.positionsOf = none →
      formatInterpretationDyn (some s) = .error "KeyError: positions") ∧
    (∀ s : DynStruct, s.isEmptyDict = false → s.wordsWithSensesOf = none →
      s.wordsOf = none →
      formatWithSensesInterpDyn (some s) = .error "KeyError: words") := by
  refine ⟨rfl, rfl, ?_, ?_, ?_⟩
  · intro s hs
    constructor
    · rw [formatInterpretationDyn, if_pos hs]
    · rw [formatWithSensesInterpDyn, if_pos hs]
  · intro s hs hp
    rcases s with ⟨p, w, wws, l, r⟩
    have hp2 : p = none := hp
    subst hp2
    rw [formatInterpretationDyn, if_neg (by rw [hs]; exact Bool.false_ne_true),
      formatStructureDyn, if_neg (by rw [hs]; exact Bool.false_ne_true)]
  · intro s hs hwws hw
    rcases s with ⟨p, w, wws, l, r⟩
    have hw2 : w = none := hw
    have hwws2 : wws = none := hwws
    subst hw2
    subst hwws2
    rw [formatWithSensesInterpDyn, if_neg (by rw [hs]; exact Bool.false_ne_true),
      formatWithSensesDyn, if_neg (by rw [hs]; exact Bool.false_ne_true)]

/-- C10, witness: the amended statement applied to the empty dict and
to the concrete malformed structure. -/
theorem C10_formatting_amended_witness :
    formatInterpretationDyn (some (.mk none none none .absentKey .absentKey)) =
        .ok "NO INTERPRETATION" ∧
      formatInterpretationDyn (some badStruct) = .error "KeyError: positions" :=
  ⟨(C10_formatting_amended.2.2.1 (.mk none none none .absentKey .absentKey) (by decide)).1,
    C10_formatting_amended.2.2.2.1 badStruct (by decide) rfl⟩

/-! ### Claim theorems: root selection (C5) -/

theorem specBonus_eq (idx : Nat) : specBonus idx = (scoreBonus idx : Int) := by
  rcases idx with _ | n
  · decide
  · have hle : (1 : Int) - ((n + 1 : Nat) : Int) ≤ 0 := by push_cast; omega
    rw [specBonus, scoreBonus, max_eq_left hle]
    simp

theorem specRelPart_eq (table : ClassTable) (ct : ComplexTriple) :
    specRelPart table ct = (scoreRelPart table ct : Int) := by
  rw [specRelPart, scoreRelPart]
  by_cases h : ct.relPos ≠ 0
  · rw [if_pos h, if_pos h]
    rcases htg : tableGet table ct.relPos with _ | info
    · simp only [htg]
      rfl
    · simp only [htg]
      rcases hf : info.senses.find?
          (fun vs => vs.semanticClasses.contains ct.sef.relation) with _ | vs
      · simp only [hf]
        rfl
      · simp only [hf, specBonus_eq]
        push_cast
        ring
  · rw [if_neg h, if_neg h]
    rfl

theorem specArgPart_eq (table : ClassTable) (pos : Nat) (tag : String) :
    specArgPart table pos tag = (scoreArgPart table pos tag : Int) := by
  rw [specArgPart, scoreArgPart]
  by_cases h : pos ≠ 0
  · rw [if_pos h, if_pos h]
    rcases htg : tableGet table pos with _ | info
    · simp only [htg]
      rfl
    · simp only [htg]
      rcases hf : info.senses.find? (fun s => s.matchesClass tag) with _ | s
      · simp only [hf]
        rfl
      · simp only [hf]
        by_cases hc : s.semanticClasses.contains tag = true
        · rw [if_pos hc, if_pos hc, specBonus_eq]
          push_cast
          ring
        · rw [if_neg hc, if_neg hc]
          rfl
  · rw [if_neg h, if_neg h]
    rfl

theorem specScore_eq (table : ClassTable) (ct : ComplexTriple) :
    specScore table ct = (scoreTriple table ct : Int) := by
  rw [specScore, scoreTriple, specRelPart_eq, specArgPart_eq, specArgPart_eq]
  push_cast
  ring

theorem insertDescBy_ne_nil (x : Nat × ComplexTriple) (l : List (Nat × ComplexTriple)) :
    insertDescBy x l ≠ [] := by
  rcases l with _ | ⟨y, ys⟩
  · simp [insertDescBy]
  · rw [insertDescBy]
    split <;> simp

theorem sortDescByScore_eq_nil_iff (l : List (Nat × ComplexTriple)) :
    sortDescByScore l = [] ↔ l = [] := by
  rcases l with _ | ⟨x, xs⟩
  · simp [sortDescByScore]
  · rw [sortDescByScore]
    simp [insertDescBy_ne_nil]

theorem filter_insertDescBy (k : Nat) (x : Nat × ComplexTriple) :
    ∀ (l : List (Nat × ComplexTriple)),
    (insertDescBy x l).filter (fun p => p.1 == k) =
      if x.1 == k then x :: l.filter (fun p => p.1 == k)
      else l.filter (fun p => p.1 == k) := by
  intro l
  induction l with
  | nil =>
    rw [insertDescBy]
    rcases hxk : (x.1 == k) with _ | _ <;> simp [List.filter_cons, hxk]
  | cons y ys ih =>
    rw [insertDescBy]
    by_cases hlt : x.1 < y.1
    · rw [if_pos hlt, List.filter_cons, ih, List.filter_cons]
      rcases hxk : (x.1 == k) with _ | _
      · simp [hxk]
      · have hxk2 : x.1 = k := by simpa using hxk
        have hyk : (y.1 == k) = false := by
          simp only [beq_eq_false_iff_ne, ne_eq]
          omega
        simp [hxk, hyk]
    · rw [if_neg hlt]
      rcases hxk : (x.1 == k) with _ | _ <;> simp [List.filter_cons, hxk]

theorem filter_sortDescByScore (k : Nat) :
    ∀ (l : List (Nat × ComplexTriple)),
    (sortDescByScore l).filter (fun p => p.1 == k) = l.filter (fun p => p.1 == k) := by
  intro l
  induction l with
  | nil => rfl
  | cons x xs ih =>
    rw [sortDescByScore, filter_insertDescBy, List.filter_cons]
    rcases hxk : (x.1 == k) with _ | _ <;> simp [hxk, ih]

/-- Maximum key of a scored list, the value `scored[0][0]` takes after
the descending sort. -/
def maxScoreOf (l : List (Nat × ComplexTriple)) : Nat :=
  l.foldr (fun p m => Nat.max p.1 m) 0

theorem sortDesc_head_max :
    ∀ (l : List (Nat × ComplexTriple)) (m : Nat) (c : ComplexTriple)
      (rest : List (Nat × ComplexTriple)),
    sortDescByScore l = (m, c) :: rest → m = maxScoreOf l := by
  intro l
  induction l with
  | nil => intro m c rest h; simp [sortDescByScore] at h
  | cons a t ih =>
    intro m c rest h
    rw [sortDescByScore] at h
    have hmax : maxScoreOf (a :: t) = Nat.max a.1 (maxScoreOf t) := by
      rw [maxScoreOf, List.foldr_cons]; rfl
    rcases ht : sortDescByScore t with _ | ⟨⟨my, cy⟩, ys⟩
    · have ht2 : t = [] := (sortDescByScore_eq_nil_iff t).mp ht
      rw [ht, insertDescBy] at h
      injection h with h1 _
      have ha1 : a.1 = m := congrArg Prod.fst h1
      rw [hmax]
      subst ht2
      rw [show maxScoreOf ([] : List (Nat × ComplexTriple)) = 0 from rfl, ha1]
      exact (Nat.max_zero m).symm
    · have hy : my = maxScoreOf t := ih my cy ys ht
      rw [ht, insertDescBy] at h
      by_cases hlt : a.1 < my
      · rw [if_pos hlt] at h
        injection h with h1 _
        have hm2 : my = m := congrArg Prod.fst h1
        rw [hmax, ← hy, ← hm2]
        exact (Nat.max_eq_right (Nat.le_of_lt hlt)).symm
      · rw [if_neg hlt] at h
        injection h with h1 _
        have hm2 : a.1 = m := congrArg Prod.fst h1
        rw [hmax, ← hy, ← hm2]
        exact (Nat.max_eq_left (Nat.le_of_not_lt hlt)).symm

theorem maxScoreOf_map (f : ComplexTriple → Nat) :
    ∀ (l : List ComplexTriple),
    maxScoreOf (l.map (fun ct => (f ct, ct))) = (l.map f).foldr Nat.max 0 := by
  intro l
  induction l with
  | nil => rfl
  | cons a t ih =>
    rw [List.map_cons, maxScoreOf, List.foldr_cons, List.map_cons, List.foldr_cons]
    rw [maxScoreOf] at ih
    rw [ih]

theorem cast_foldr_max :
    ∀ (l : List Nat), ((l.foldr Nat.max 0 : Nat) : Int) = (l.map Nat.cast).foldr max 0 := by
  intro l
  induction l with
  | nil => rfl
  | cons a t ih =>
    rw [List.foldr_cons, List.map_cons, List.foldr_cons, ← ih]
    push_cast
    rfl

theorem map_filter_scored (f : ComplexTriple → Nat) (k : Nat) :
    ∀ (l : List ComplexTriple),
    ((l.map (fun ct => (f ct, ct))).filter (fun p => p.1 == k)).map (fun p => p.2) =
      l.filter (fun ct => f ct == k) := by
  intro l
  induction l with
  | nil => rfl
  | cons a t ih =>
    rcases hk : (f a == k) with _ | _
    · simp [List.filter_cons, hk, ih]
    · simp [List.filter_cons, hk, ih]

theorem minByAbstraction_val : ∀ (rest : List ComplexTriple) (c : ComplexTriple),
    abstraction_level (minByAbstraction c rest).sef = minAbstractionOf c rest := by
  intro rest
  induction rest with
  | nil => intro c; rfl
  | cons a t ih =>
    intro c
    have hfold : minByAbstraction c (a :: t) =
        minByAbstraction (if abstraction_level a.sef < abstraction_level c.sef then a else c) t := rfl
    have hfold2 : minAbstractionOf c (a :: t) =
        t.foldl (fun m ct => Nat.min m (abstraction_level ct.sef))
          (Nat.min (abstraction_level c.sef) (abstraction_level a.sef)) := rfl
    rw [hfold, ih, hfold2]
    have : abstraction_level
        (if abstraction_level a.sef < abstraction_level c.sef then a else c).sef =
        Nat.min (abstraction_level c.sef) (abstraction_level a.sef) := by
      rcases Nat.lt_or_ge (abstraction_level a.sef) (abstraction_level c.sef) with hlt | hge
      · rw [if_pos hlt]
        exact (Nat.min_eq_right (Nat.le_of_lt hlt)).symm
      · rw [if_neg (Nat.not_lt.mpr hge)]
        exact (Nat.min_eq_left hge).symm
    rw [minAbstractionOf, this]

theorem minAbstractionOf_attained (c : ComplexTriple) (cs : List ComplexTriple) :
    ∃ x ∈ c :: cs, abstraction_level x.sef = minAbstractionOf c cs :=
  ⟨minByAbstraction c cs, minByAbstraction_mem cs c, minByAbstraction_val cs c⟩

/-- C5.  Root selection of `generate_structures` equals the
specification's description: score every verb-like final triple with
the `+3`/`+2` and `max(0, 1 - index)` specificity rules, keep all
candidates of maximal score with ties broken by minimal abstraction
level, fall back to all verb-like candidates when the maximum is 0,
and to the first final triple when no verb-like candidate exists; the
embedded score itself coincides with the specification's integer
formula. -/
theorem C5_root_selection (finals : List ComplexTriple) (table : ClassTable) :
    generate_main_triples finals table = specMainTriples finals table ∧
    ∀ ct : ComplexTriple, specScore table ct = (scoreTriple table ct : Int) := by
  refine ⟨?_, fun ct => specScore_eq table ct⟩
  simp only [generate_main_triples, specMainTriples]
  by_cases hf : finals.isEmpty
  · rw [if_pos hf, if_pos hf]
  · rw [if_neg hf, if_neg hf]
    by_cases hc : (finals.filter (fun ct => verbRelations.contains ct.sef.relation)).isEmpty
    · rw [if_pos hc, if_pos hc]
      rfl
    · set cands := finals.filter (fun ct => verbRelations.contains ct.sef.relation) with hcands
      rw [if_neg hc, if_neg hc]
      set scored := cands.map (fun ct => (scoreTriple table ct, ct)) with hscored
      rcases hsort : sortDescByScore scored with _ | ⟨⟨m, c0⟩, rest⟩
      · exfalso
        have : scored = [] := (sortDescByScore_eq_nil_iff scored).mp hsort
        rw [hscored] at this
        rcases List.map_eq_nil_iff.mp this with h2
        rw [h2] at hc
        exact hc rfl
      · have hm : m = maxScoreOf scored := sortDesc_head_max scored m c0 rest hsort
        have hmcast : specMaxScore table cands = (m : Int) := by
          rw [specMaxScore, hm, hscored, maxScoreOf_map, cast_foldr_max, List.map_map]
          have : ∀ ct : ComplexTriple,
              (Nat.cast ∘ scoreTriple table) ct = specScore table ct := by
            intro ct; rw [Function.comp, specScore_eq]
          rw [List.map_congr_left (fun ct _ => this ct)]
        have htop : (((m, c0) :: rest).filter (fun p => p.1 == m)).map (fun p => p.2) =
            cands.filter (fun ct => specScore table ct == specMaxScore table cands) := by
          rw [← hsort, filter_sortDescByScore, hscored, map_filter_scored]
          apply List.filter_congr
          intro ct _
          rw [hmcast, specScore_eq]
          rcases hb : (scoreTriple table ct == m) with _ | _
          · have : scoreTriple table ct ≠ m := by simpa using hb
            have : (scoreTriple table ct : Int) ≠ (m : Int) := by exact_mod_cast this
            simpa using this
          · have : scoreTriple table ct = m := by simpa using hb
            have : (scoreTriple table ct : Int) = (m : Int) := by exact_mod_cast this
            simpa using this
        simp only [hsort]
        by_cases hm0 : 0 < m
        · rw [if_pos hm0]
          have hms0 : ¬ specMaxScore table cands = 0 := by
            rw [hmcast]
            exact_mod_cast Nat.pos_iff_ne_zero.mp hm0
          rw [if_neg hms0, ← htop]
          have hc0top : c0 ∈ (((m, c0) :: rest).filter (fun p => p.1 == m)).map
              (fun p => p.2) :=
            List.mem_map.mpr ⟨(m, c0),
              List.mem_filter.mpr ⟨List.mem_cons_self _ _, by simp⟩, rfl⟩
          rcases htc : (((m, c0) :: rest).filter (fun p => p.1 == m)).map (fun p => p.2)
            with _ | ⟨tc, tcs⟩
          · rw [htc] at hc0top
            exact absurd hc0top (List.not_mem_nil c0)
          · simp only [htc]
            have hne : (tc :: tcs).filter (fun ct =>
                abstraction_level ct.sef == minAbstractionOf tc tcs) ≠ [] := by
              rcases minAbstractionOf_attained tc tcs with ⟨x, hx, hxv⟩
              intro hnil
              have : x ∈ (tc :: tcs).filter (fun ct =>
                  abstraction_level ct.sef == minAbstractionOf tc tcs) :=
                List.mem_filter.mpr ⟨hx, by simp [hxv]⟩
              rw [hnil] at this
              exact List.not_mem_nil _ this
            rcases hfe : (tc :: tcs).filter (fun ct =>
                abstraction_level ct.sef == minAbstractionOf tc tcs) with _ | ⟨u, us⟩
            · exact absurd hfe hne
            · rw [hfe]
              rfl
        · rw [if_neg hm0]
          have hm00 : m = 0 := by omega
          have hms0 : specMaxScore table cands = 0 := by rw [hmcast, hm00]; rfl
          rw [if_pos hms0, if_neg hc]

/-! ### Claim theorems: the worked example (C6) -/

/-- The scenario-A input sentence. -/
def sentenceA : String := "the angry pitcher struck the careless batter"

set_option maxRecDepth 400000 in
/-- C6.  Full evaluation of the pipeline on
`"the angry pitcher struck the careless batter"`: `analyze` returns
exactly one interpretation whose root SEF is `(PERSON HIT PERSON)`,
but that interpretation has *no* children (the seen-set of
`_build_structure_iterative` already contains the root's own argument
positions, so no `MOD` triple can ever attach), rendering as
`(PITCHER STRUCK BATTER)` without `ANGRY`/`CARELESS`; and
`select_word_senses` maps position 4 (`struck`) to sense number 1, not
the claimed HIT sense 3 (relation positions are never scored), while
`pitcher` does resolve to sense 1, giving
`(PITCHER_1 STRUCK BATTER_1)`. -/
theorem C6_worked_example :
    (analyze sentenceA).map (fun t => t.sefOf) = [⟨"PERSON", "HIT", "PERSON"⟩] ∧
    (analyze sentenceA).map (fun t => t.hasChild) = [false] ∧
    (analyze sentenceA).map format_structure = ["(PITCHER STRUCK BATTER)"] ∧
    ((analyze sentenceA).head?.map (fun t =>
      (buildSenseMap t (analyzeTable sentenceA)).map (fun p => (p.1, p.2.senseNum)))) =
      some [(1, 1), (2, 1), (3, 1), (4, 1), (5, 1), (6, 1), (7, 1)] ∧
    ((analyze sentenceA).head?.map (fun t =>
      format_with_senses_structure (select_word_senses t (analyzeTable sentenceA)))) =
      some "(PITCHER_1 STRUCK BATTER_1)" := by
  refine ⟨by decide, by decide, by decide, by decide, by decide⟩

end SemAn
